import Mathlib

/-!
Verification of the conditional-configuration-block toolchain
(`src/modelCreator.ts`): a shallow embedding of its pure text-processing
core over `List Char` strings, together with proofs about the block
parser, the board-model extractor, the EEPROM-macro generator, the
template synthesizer, the insertion planner, the parameter-file
synchronizer and the alignment analyzer.

Strings are modelled as `List Char` (`Str`); a document is the list of
its lines, obtained by splitting on `\r?\n` exactly as the source does.
Each JavaScript regular expression used by the source is implemented as
an explicit matcher on `Str` with the same leftmost / greedy semantics
on the pattern's alphabet.
-/

abbrev Str := List Char

def str (s : String) : Str := s.data

/-- JavaScript whitespace (ASCII part), as used by `String.prototype.trim`
and by `\s` in the source's regular expressions. -/
def isWsChar (c : Char) : Bool :=
  c = ' ' || c = '\t' || c = '\r' || c = '\n' || c = '\x0b' || c = '\x0c'

/-- `String.prototype.trim`. -/
def jsTrim (s : Str) : Str :=
  ((s.dropWhile isWsChar).reverse.dropWhile isWsChar).reverse

/-- `s.startsWith(p)` : `p` is a prefix of `s`. -/
def hasLead (p s : Str) : Bool := decide (p = s.take p.length)

/-- Line access with the empty line as default (indices are always in
range where this is used). -/
def getLine (lines : List Str) (i : Nat) : Str := lines.getD i []

/-- `[A-Z0-9_]` - the character class of model identifiers. -/
def isNameChar (c : Char) : Bool :=
  ('A' ≤ c && c ≤ 'Z') || ('0' ≤ c && c ≤ '9') || c = '_'

/-- `[A-Za-z0-9_]` - JavaScript regex word characters (`\b` boundaries). -/
def isWordChar (c : Char) : Bool := isNameChar c || ('a' ≤ c && c ≤ 'z')

def isDigitChar (c : Char) : Bool := '0' ≤ c && c ≤ '9'

def isUpperChar (c : Char) : Bool := 'A' ≤ c && c ≤ 'Z'

def isLowerChar (c : Char) : Bool := 'a' ≤ c && c ≤ 'z'

def hexDigit (c : Char) : Bool :=
  ('0' ≤ c && c ≤ '9') || ('a' ≤ c && c ≤ 'f') || ('A' ≤ c && c ≤ 'F')

/-- ASCII `toUpperCase` on one character. -/
def upperChar (c : Char) : Char :=
  if isLowerChar c then Char.ofNat (c.toNat - 32) else c

/-- ASCII `toLowerCase` on one character. -/
def lowerChar (c : Char) : Char :=
  if isUpperChar c then Char.ofNat (c.toNat + 32) else c

def toUpperStr (s : Str) : Str := s.map upperChar

def toLowerStr (s : Str) : Str := s.map lowerChar

/-- `split(/\r?\n/)` : split a text into lines on `\n`, consuming a
directly preceding `\r` together with it. -/
def splitLinesRN : Str → List Str
  | [] => [[]]
  | '\r' :: '\n' :: rest =>
    [] :: splitLinesRN rest
  | '\n' :: rest =>
    [] :: splitLinesRN rest
  | c :: rest =>
    match splitLinesRN rest with
    | [] => [[c]]
    | h :: t => (c :: h) :: t

/-- `split(c)` with JavaScript semantics (`n` separators give `n+1`
parts, the empty string splits to `[""]`). -/
def jsSplit (sep : Char) : Str → List Str
  | [] => [[]]
  | c :: rest =>
    match jsSplit sep rest with
    | [] => if c = sep then [[], []] else [[c]]
    | h :: t => if c = sep then [] :: h :: t else (c :: h) :: t

/-- `join('\n')`. -/
def joinLines : List Str → Str
  | [] => []
  | [l] => l
  | l :: rest => l ++ '\n' :: joinLines rest

/-- `join(sep)` for a one-character separator. -/
def joinWith (sep : Char) : List Str → Str
  | [] => []
  | [l] => l
  | l :: rest => l ++ sep :: joinWith sep rest

/-- `lines.slice(i, e + 1)` : the lines of a block range. -/
def sliceLines (lines : List Str) (i e : Nat) : List Str :=
  (lines.drop i).take (e + 1 - i)

/-! ### Generic leftmost-occurrence search and replacement -/

/-- Index of the first occurrence of `pat` as a contiguous substring. -/
def findSub (pat : Str) : Str → Option Nat
  | [] => if pat = [] then some 0 else none
  | c :: rest =>
    if hasLead pat (c :: rest) then some 0
    else (findSub pat rest).map (· + 1)

/-- `s.includes(pat)`. -/
def containsSub (pat s : Str) : Bool := (findSub pat s).isSome

/-- `s.replace(pat, rep)` for a plain-string pattern: replace the first
occurrence only. -/
def replaceFirstSub (pat rep s : Str) : Str :=
  match findSub pat s with
  | some i => s.take i ++ rep ++ s.drop (i + pat.length)
  | none => s

/-- Leftmost match of a positional matcher `m` (where `m t` returns the
length of a match anchored at the start of `t`): tries every suffix from
the left, like an unanchored JavaScript regex search. -/
def findMatchPos (m : Str → Option Nat) : Str → Option (Nat × Nat)
  | [] => (m []).map (fun len => (0, len))
  | c :: rest =>
    match m (c :: rest) with
    | some len => some (0, len)
    | none => (findMatchPos m rest).map (fun p => (p.1 + 1, p.2))

/-- `s.replace(regex, rep)` : replace the leftmost match of the
positional matcher `m` by `rep`, or return `s` unchanged. -/
def replaceByMatch (m : Str → Option Nat) (rep s : Str) : Str :=
  match findMatchPos m s with
  | some (i, len) => s.take i ++ rep ++ s.drop (i + len)
  | none => s

/-- `regex.test(s)` for an unanchored positional predicate. -/
def anyPos (p : Str → Bool) : Str → Bool
  | [] => p []
  | c :: rest => p (c :: rest) || anyPos p rest

/-- Leftmost successful result of a positional capture-matcher, tried at
every suffix from the left (`String.prototype.match` returning a captured
group). -/
def firstMatch (m : Str → Option Str) : Str → Option Str
  | [] => m []
  | c :: rest =>
    match m (c :: rest) with
    | some r => some r
    | none => firstMatch m rest

/-! ### Block parser (`parseExistingModels`) -/

structure ModelInfo where
  name : Str
  configBlock : Str
  startLine : Nat
  endLine : Nat
  deriving Repr, DecidableEq

/-- `^#\s*(if|elif)\s+([A-Z0-9_]+)` applied to a (trimmed) line; returns
the captured identifier.  The keyword alternation tries `if` first, then
`elif`; both require at least one whitespace character before the
identifier, exactly as the regex does. -/
def headerMatch (s : Str) : Option Str :=
  match s with
  | '#' :: rest0 =>
    let rest1 := rest0.dropWhile isWsChar
    let afterKw : Option Str :=
      if rest1.take 2 = str "if" then some (rest1.drop 2)
      else if rest1.take 4 = str "elif" then some (rest1.drop 4)
      else none
    match afterKw with
    | none => none
    | some rest2 =>
      match rest2 with
      | [] => none
      | c :: _ =>
        if isWsChar c then
          let nm := (rest2.dropWhile isWsChar).takeWhile isNameChar
          if nm = [] then none else some nm
        else none
  | _ => none

/-- A line whose trimmed text starts with one of `#if`, `#elif`, `#else`,
`#endif` - the block-terminator test of the parser. -/
def isDirectiveLine (l : Str) : Bool :=
  hasLead (str "#if") (jsTrim l) || hasLead (str "#elif") (jsTrim l) ||
  hasLead (str "#else") (jsTrim l) || hasLead (str "#endif") (jsTrim l)

/-- First line index strictly after `i` whose line is a directive line. -/
def findDirFrom (lines : List Str) (i : Nat) : Option Nat :=
  (List.range' (i + 1) (lines.length - (i + 1))).find?
    (fun j => isDirectiveLine (getLine lines j))

/-- The `while (actualEndLine > startLine && blank) actualEndLine--` loop:
walk `k` down while the line is blank and `k` is still above `s`. -/
def trimBlankEnd (lines : List Str) (s : Nat) : Nat → Nat
  | 0 => 0
  | k + 1 =>
    if s < k + 1 ∧ jsTrim (getLine lines (k + 1)) = [] then
      trimBlankEnd lines s k
    else k + 1

/-- End line of the block opened at line `i`: the line before the next
directive, with trailing blank lines trimmed; end of document when no
directive follows. -/
def computeEndLine (lines : List Str) (i : Nat) : Nat :=
  match findDirFrom lines i with
  | some j => trimBlankEnd lines i (j - 1)
  | none => trimBlankEnd lines i (lines.length - 1)

/-- The scanning loop of `parseExistingModels`, with explicit fuel
(`fuel = lines.length` always suffices because each step advances the
line index). -/
def parseFromF (lines : List Str) : Nat → Nat → List ModelInfo
  | 0, _ => []
  | fuel + 1, i =>
    if i < lines.length then
      match headerMatch (jsTrim (getLine lines i)) with
      | some nm =>
        let e := computeEndLine lines i
        { name := nm
          configBlock := joinLines (sliceLines lines i e)
          startLine := i
          endLine := e } :: parseFromF lines fuel (e + 1)
      | none => parseFromF lines fuel (i + 1)
    else []

def parseLines (lines : List Str) : List ModelInfo :=
  parseFromF lines lines.length 0

/-- `parseExistingModels` : parse a document into its conditional blocks. -/
def parseExistingModels (content : Str) : List ModelInfo :=
  parseLines (splitLinesRN content)

/-! ### Naming extractor (`extractBoardModelFromName`) -/

/-- Case-insensitive character comparison (the `i` regex flag). -/
def ciEq (a b : Char) : Bool := upperChar a = upperChar b

/-- Match a literal case-insensitively at the start of `s`; returns the
consumed original characters and the remaining suffix. -/
def ciLit : Str → Str → Option (Str × Str)
  | [], s => some ([], s)
  | _ :: _, [] => none
  | p :: ps, c :: cs =>
    if ciEq p c then (ciLit ps cs).map (fun r => (c :: r.1, r.2))
    else none

/-- `\d+` (greedy) at the start of `s`. -/
def digits1 (s : Str) : Option (Str × Str) :=
  let d := s.takeWhile isDigitChar
  if d = [] then none else some (d, s.drop d.length)

/-- `(KFW\d+C_\d+_(?:AC|DC))` anchored at the start of `s`
(case-insensitive); returns the captured text. -/
def matchP1At (s : Str) : Option Str :=
  (ciLit (str "KFW") s).bind fun r1 =>
  (digits1 r1.2).bind fun r2 =>
  (ciLit (str "C_") r2.2).bind fun r3 =>
  (digits1 r3.2).bind fun r4 =>
  (ciLit (str "_") r4.2).bind fun r5 =>
  (match ciLit (str "AC") r5.2 with
   | some r6 => some r6.1
   | none =>
     match ciLit (str "DC") r5.2 with
     | some r6 => some r6.1
     | none => none).map fun f =>
  r1.1 ++ r2.1 ++ r3.1 ++ r4.1 ++ r5.1 ++ f

/-- `(KFW\d+CAF)` anchored at the start of `s` (case-insensitive). -/
def matchP2At (s : Str) : Option Str :=
  (ciLit (str "KFW") s).bind fun r1 =>
  (digits1 r1.2).bind fun r2 =>
  (ciLit (str "CAF") r2.2).map fun r3 =>
  r1.1 ++ r2.1 ++ r3.1

/-- `(KFW\d+C_\d+)` anchored at the start of `s` (case-insensitive). -/
def matchP3At (s : Str) : Option Str :=
  (ciLit (str "KFW") s).bind fun r1 =>
  (digits1 r1.2).bind fun r2 =>
  (ciLit (str "C_") r2.2).bind fun r3 =>
  (digits1 r3.2).map fun r4 =>
  r1.1 ++ r2.1 ++ r3.1 ++ r4.1

/-- `extractBoardModelFromName` : try the three board-model patterns in
priority order and return the first (leftmost) match. -/
def extractBoardModelFromName (name : Str) : Option Str :=
  match firstMatch matchP1At name with
  | some r => some r
  | none =>
    match firstMatch matchP2At name with
    | some r => some r
    | none => firstMatch matchP3At name

/-! ### EEPROM macro generation -/

/-- `s.endsWith(suf)`. -/
def endsW (suf s : Str) : Bool := decide (s.drop (s.length - suf.length) = suf)

/-- Drop the last `n` characters. -/
def dropEnd (n : Nat) (s : Str) : Str := s.take (s.length - n)

/-- `simplifyBoardModel` : uppercase, strip a leading `KFW`, strip a
trailing `_AC`/`_DC`, then strip one leading and one trailing underscore. -/
def simplifyBoardModel (boardModel : Str) : Str :=
  let u0 := toUpperStr boardModel
  let u1 := if hasLead (str "KFW") u0 then u0.drop 3 else u0
  let u2 := if endsW (str "_AC") u1 || endsW (str "_DC") u1 then dropEnd 3 u1 else u1
  let u3 := if hasLead (str "_") u2 then u2.drop 1 else u2
  if endsW (str "_") u3 then dropEnd 1 u3 else u3

/-- `generateEepromMacro` : `none` models the thrown error.  A missing
(`none`) argument and an empty-string argument are both falsy in the
source's `!boardModel || !customerName || !eePromVersion` test. -/
def generateEepromMacro : Option Str → Option Str → Option Str → Option Str
  | some bm, some cn, some ev =>
    if bm = [] || cn = [] || ev = [] then none
    else some (str "EEPROMDATA_" ++ toUpperStr cn ++ '_' :: simplifyBoardModel bm
               ++ '_' :: toUpperStr ev)
  | _, _, _ => none

/-- `transformMacroToFilename` : strip the `EEPROMDATA_` prefix, lowercase
the all-uppercase underscore-separated segments, and prepend `eepromdata_`. -/
def transformMacroToFilename (mac : Str) : Str :=
  let baseName := if hasLead (str "EEPROMDATA_") mac then mac.drop 11 else mac
  let parts := jsSplit '_' baseName
  let newParts := parts.map fun part =>
    if part ≠ [] && part.all isUpperChar then toLowerStr part else part
  str "eepromdata_" ++ joinWith '_' newParts

/-! ### Template synthesizer (`createModelConfiguration`) -/

/-- `#define\s+<word...>` anchored at the start of `s` : the literal
`#define`, at least one whitespace character, then text starting with
`word`. -/
def defineRefAt (word : Str) (s : Str) : Bool :=
  hasLead (str "#define") s &&
  (match s.drop 7 with
   | [] => false
   | c :: _ => isWsChar c && hasLead word ((s.drop 7).dropWhile isWsChar))

/-- Unanchored test for `#define\s+<word...>` anywhere in the line. -/
def testDefineRef (word : Str) (l : Str) : Bool := anyPos (defineRefAt word) l

/-- `0x[0-9a-fA-F]{8}` anchored at the start of `s` (length 10 on success). -/
def hex8At (s : Str) : Option Nat :=
  if s.take 2 = str "0x" && ((s.drop 2).take 8).all hexDigit
     && decide (8 ≤ (s.drop 2).length) then some 10 else none

/-- `"[^"]*"` anchored at the start of `s`. -/
def quotedAt (s : Str) : Option Nat :=
  match s with
  | '"' :: rest =>
    let body := rest.takeWhile (fun c => !(c = '"'))
    match rest.drop body.length with
    | '"' :: _ => some (body.length + 2)
    | _ => none
  | _ => none

/-- `EEPROMDATA_[^\s]+` anchored at the start of `s`. -/
def eepromRefAt (s : Str) : Option Nat :=
  if hasLead (str "EEPROMDATA_") s then
    let run := (s.drop 11).takeWhile (fun c => !isWsChar c)
    if run = [] then none else some (11 + run.length)
  else none

/-- `line.replace(/^#\s*if/, '#elif')`. -/
def replaceHashIf (l : Str) : Str :=
  match l with
  | '#' :: rest =>
    let r2 := rest.dropWhile isWsChar
    if r2.take 2 = str "if" then str "#elif" ++ r2.drop 2 else l
  | _ => l

/-- Truthiness of an optional string value (JavaScript falsiness:
`undefined` and the empty string are both falsy). -/
def optTruthy : Option Str → Bool
  | some s => !s.isEmpty
  | none => false

/-- The `SOFTWARE_VERSION` appended line
`#define SOFTWARE_VERSION                (uint32_t)<val>        // 软件版本号`. -/
def swCreateLine (val : Str) : Str :=
  str "#define SOFTWARE_VERSION                (uint32_t)" ++ val
    ++ str "        // 软件版本号"

/-- The `CUSTOM_CODE_NAME` appended line. -/
def ccnCreateLine (val : Str) : Str :=
  str "#define CUSTOM_CODE_NAME                \"" ++ val
    ++ str "\"       // 客户料号名称 最长30字节"

/-- Iteration of the processor loop for `SOFTWARE_VERSION`: find the first
matching line; replace its 8-digit hex constant when a value is supplied,
remove the line when not, append a new line when absent but supplied. -/
def stepSW (sw : Option Str) (ls : List Str) : List Str :=
  match ls.findIdx? (testDefineRef (str "SOFTWARE_VERSION")) with
  | some i =>
    if optTruthy sw then ls.set i (replaceByMatch hex8At (sw.getD []) (getLine ls i))
    else ls.eraseIdx i
  | none =>
    if optTruthy sw then ls ++ [swCreateLine (sw.getD [])] else ls

/-- Iteration of the processor loop for `CUSTOM_CODE_NAME` (the value used
is `<CUSTOMER>_<codeName>`, built only when the raw code name is truthy). -/
def stepCCN (ccn : Option Str) (customer : Str) (ls : List Str) : List Str :=
  let full : Option Str :=
    match ccn with
    | some c => if c = [] then none else some (toUpperStr customer ++ '_' :: c)
    | none => none
  match ls.findIdx? (testDefineRef (str "CUSTOM_CODE_NAME")) with
  | some i =>
    match full with
    | some v => ls.set i (replaceByMatch quotedAt ('"' :: v ++ ['"']) (getLine ls i))
    | none => ls.eraseIdx i
  | none =>
    match full with
    | some v => ls ++ [ccnCreateLine v]
    | none => ls

/-- Iteration of the processor loop for the EEPROM macro: mandatory, so
the first matching line is rewritten in place and never removed; no line
is appended when the reference block has none (`createLine` is `null`). -/
def stepEE (mac : Str) (ls : List Str) : List Str :=
  match ls.findIdx? (testDefineRef (str "EEPROMDATA_")) with
  | some i =>
    if mac = [] then ls
    else ls.set i (replaceByMatch eepromRefAt mac (getLine ls i))
  | none => ls

/-- `createModelConfiguration` (pure part): the text of the synthesized
block.  Line 0 gets the reference name replaced by the new name and a
leading `#if` rewritten to `#elif`; then the three field processors run
in order. -/
def createModelConfiguration (configBlock refName newName newMacro : Str)
    (sw ccn : Option Str) (customer : Str) : Str :=
  match jsSplit '\n' configBlock with
  | [] => []
  | l0 :: rest =>
    let ls0 := replaceHashIf (replaceFirstSub refName newName l0) :: rest
    joinLines (stepEE newMacro (stepCCN ccn customer (stepSW sw ls0)))

/-- The primary-file edit: the reference block's line range is replaced by
the reference block, a blank line, and the synthesized block. -/
def applyPrimaryEdit (configLines : List Str) (ref : ModelInfo) (newBlock : Str) :
    List Str :=
  configLines.take ref.startLine
    ++ splitLinesRN ref.configBlock ++ [[]] ++ splitLinesRN newBlock
    ++ configLines.drop (ref.endLine + 1)

/-! ### Insertion planner (`findNextPreprocessorLine`) -/

/-- A line whose trimmed text starts with `#elif`, `#else` or `#endif`
(note: not `#if`) - the forward-scan test of the insertion planner. -/
def isNextDirective3 (l : Str) : Bool :=
  hasLead (str "#elif") (jsTrim l) || hasLead (str "#else") (jsTrim l) ||
  hasLead (str "#endif") (jsTrim l)

/-- Index of the last line whose trimmed text is exactly `#endif`. -/
def lastEndifIdx (lines : List Str) : Option Nat :=
  (List.range lines.length).reverse.find?
    (fun j => decide (jsTrim (getLine lines j) = str "#endif"))

/-- `findNextPreprocessorLine` : scan forward from `startLine + 1` for the
next `#elif`/`#else`/`#endif` line; fall back to the last line that is
exactly `#endif`; `none` models the returned `-1`. -/
def findNextPreprocessorLine (lines : List Str) (startLine : Nat) : Option Nat :=
  match (List.range' (startLine + 1) (lines.length - (startLine + 1))).find?
      (fun j => isNextDirective3 (getLine lines j)) with
  | some j => some j
  | none => lastEndifIdx lines

/-! ### Parameter-file synchronizer (`updateSystemParaC`) -/

/-- `#define\s+(EEPROMDATA_[^\s]+)` anchored at the start of `s`; returns
the captured macro name. -/
def defineEepromCaptureAt (s : Str) : Option Str :=
  if hasLead (str "#define") s then
    match s.drop 7 with
    | [] => none
    | c :: _ =>
      if isWsChar c then
        let r2 := (s.drop 7).dropWhile isWsChar
        if hasLead (str "EEPROMDATA_") r2 then
          let run := (r2.drop 11).takeWhile (fun c => !isWsChar c)
          if run = [] then none else some (str "EEPROMDATA_" ++ run)
        else none
      else none
  else none

/-- Leftmost `#define\s+(EEPROMDATA_[^\s]+)` capture in a whole block
text (the `\s` class also matches the newlines inside the block). -/
def defineEepromCapture (blockText : Str) : Option Str :=
  firstMatch defineEepromCaptureAt blockText

/-- `deriveRefEepromMacro` : derive the reference block's EEPROM macro
from its name; `Except.error` models the exception that
`generateEepromMacro` throws on an empty version or customer. -/
def deriveRefEepromMacro (name customer : Str) : Except Unit (Option Str) :=
  let parts := jsSplit '_' name
  if parts.length < 2 then .ok none
  else
    let ver := parts.getLastD []
    match extractBoardModelFromName name with
    | none => .ok none
    | some bm =>
      match generateEepromMacro (some bm) (some customer) (some ver) with
      | none => .error ()
      | some m => .ok (some m)

/-- `^\s*#elif\s+<macroName>\b` test on a raw line (`\b` with full
word/non-word xor semantics at the end of the macro name). -/
def elifRefTest (macroName : Str) (line : Str) : Bool :=
  let s1 := line.dropWhile isWsChar
  hasLead (str "#elif") s1 &&
  (match s1.drop 5 with
   | [] => false
   | c :: _ =>
     isWsChar c &&
     (let s3 := (s1.drop 5).dropWhile isWsChar
      hasLead macroName s3 &&
      (let rest := s3.drop macroName.length
       match macroName.getLast? with
       | none =>
         match rest with
         | [] => false
         | c2 :: _ => isWordChar c2
       | some lc =>
         match rest with
         | [] => isWordChar lc
         | c2 :: _ => isWordChar lc != isWordChar c2)))

/-- Scan from line `k` for the end of the matched `#elif` arm: the first
`#elif`/`#else`/`#endif` line at or after `k`, or the line count. -/
def blockEndScan (lines : List Str) (k : Nat) : Nat :=
  match (List.range' k (lines.length - k)).find?
      (fun j => isNextDirective3 (getLine lines j)) with
  | some j => j
  | none => lines.length

/-- `findEepromInsertionLine` : locate the `#elif` arm guarded by the
reference macro and return the line index just after that arm. -/
def findEepromInsertionLine (lines : List Str) (refMacro : Str) : Option Nat :=
  match lines.findIdx? (elifRefTest refMacro) with
  | some i => some (blockEndScan lines (i + 1))
  | none => none

/-- Three-way insertion-point result for the parameter file. -/
inductive InsPt where
  | thrown
  | missing
  | found (i : Nat)
  deriving Repr, DecidableEq

/-- The insertion-point computation of `updateSystemParaC`: strategy 1
(macro found in the reference block text), strategy 2 (macro derived from
the reference name - may throw), strategy 3 (the first `#else` line). -/
def paraInsertionPoint (paraLines : List Str) (refBlockText refName customer : Str) :
    InsPt :=
  let refMacroE : Except Unit (Option Str) :=
    match defineEepromCapture refBlockText with
    | some m => .ok (some m)
    | none => deriveRefEepromMacro refName customer
  match refMacroE with
  | .error _ => .thrown
  | .ok refMacro? =>
    let ins1 : Option Nat :=
      match refMacro? with
      | some rm => findEepromInsertionLine paraLines rm
      | none => none
    match ins1 with
    | some i => .found i
    | none =>
      match paraLines.findIdx? (fun l => hasLead (str "#else") (jsTrim l)) with
      | some i => .found i
      | none => .missing

/-- Outcome of the parameter-file update. -/
inductive ParaOutcome where
  | alreadyPresent
  | applied (newLines : List Str)
  | errorThrown
  deriving Repr, DecidableEq

/-- The two lines inserted into the parameter file. -/
def newElifBlockLines (newMacro customer : Str) : List Str :=
  [str "#elif " ++ newMacro,
   str "#include \"CustomerConfig/" ++ toUpperStr customer ++ '/'
     :: transformMacroToFilename newMacro ++ str ".h\""]

/-- `updateSystemParaC` (pure part): compute the insertion point (throwing
`NoInsertionPoint` when every strategy fails), then skip with
`alreadyPresent` when the document already contains the new macro, else
insert the new `#elif`/`#include` pair before the computed line. -/
def updateSystemParaC (paraLines : List Str) (refBlockText refName newMacro customer : Str) :
    ParaOutcome :=
  match paraInsertionPoint paraLines refBlockText refName customer with
  | .thrown => .errorThrown
  | .missing => .errorThrown
  | .found i =>
    if containsSub newMacro (joinLines paraLines) then .alreadyPresent
    else .applied (paraLines.take i ++ newElifBlockLines newMacro customer
                   ++ paraLines.drop i)

/-- The orchestration order of `createNewModel` restricted to the two
files of interest: the primary config edit is applied first, then the
parameter-file update runs independently on its own document. -/
def runPrimaryAndPara (configLines : List Str) (ref : ModelInfo)
    (newName newMacro : Str) (sw ccn : Option Str) (customer : Str)
    (paraLines : List Str) : List Str × ParaOutcome :=
  (applyPrimaryEdit configLines ref
     (createModelConfiguration ref.configBlock ref.name newName newMacro sw ccn customer),
   updateSystemParaC paraLines ref.configBlock ref.name newMacro customer)

/-! ### Alignment analyzer (`calculateAlignment`) -/

/-- `getVisualLength` : tabs expand to four columns, every other
character counts one. -/
def getVisualLength (s : Str) : Nat :=
  s.foldl (fun a c => a + if c = '\t' then 4 else 1) 0

/-- `^(\s*#define\s+[A-Z0-9_]+\s+)` anchored match; returns the captured
prefix (indentation, `#define`, spacing, name, and the greedy whitespace
run before the value). -/
def definePrefixMatch (l : Str) : Option Str :=
  let ind := l.takeWhile isWsChar
  let r1 := l.dropWhile isWsChar
  if hasLead (str "#define") r1 then
    match r1.drop 7 with
    | [] => none
    | c :: _ =>
      if isWsChar c then
        let ws1 := (r1.drop 7).takeWhile isWsChar
        let r2 := (r1.drop 7).dropWhile isWsChar
        let nm := r2.takeWhile isNameChar
        if nm = [] then none
        else
          match r2.drop nm.length with
          | [] => none
          | c2 :: _ =>
            if isWsChar c2 then
              some (ind ++ str "#define" ++ ws1 ++ nm
                    ++ (r2.drop nm.length).takeWhile isWsChar)
            else none
      else none
  else none

/-- The line range scanned by `calculateAlignment`: from `startLine + 1`
up to the line before `findNextPreprocessorLine`, clipped to the line
count (empty when the planner returns `-1`). -/
def alignIdxs (lines : List Str) (s : Nat) : List Nat :=
  match findNextPreprocessorLine lines s with
  | some j => List.range' (s + 1) (min j lines.length - (s + 1))
  | none => []

/-- The scanning loop of `calculateAlignment`: running maximum of the
visual lengths of `#define` prefixes, plus the indentation of the first
`#define` line. -/
def alignLoop (lines : List Str) : List Nat → Nat → Option Str → Nat × Option Str
  | [], vc, ind? => (vc, ind?)
  | k :: rest, vc, ind? =>
    match definePrefixMatch (getLine lines k) with
    | some pre =>
      alignLoop lines rest (max vc (getVisualLength pre))
        (some (ind?.getD ((getLine lines k).takeWhile isWsChar)))
    | none => alignLoop lines rest vc ind?

/-- `calculateAlignment` : value column and inner indentation for new
`#define` lines, floored by the two motor-type prototype widths; fallback
when the scanned range contains no `#define` line. -/
def calculateAlignment (lines : List Str) (startLine : Nat) : Nat × Str :=
  match alignLoop lines (alignIdxs lines startLine) 0 none with
  | (vc, some ind) =>
    (max (max vc (getVisualLength (ind ++ str "#define MOTOR1_TYPE ")))
       (getVisualLength (ind ++ str "#define MOTOR2_TYPE ")), ind)
  | (_, none) =>
    let ind := (getLine lines startLine).takeWhile isWsChar ++ str "    "
    (getVisualLength (ind ++ str "#define MOTOR2_TYPE "), ind)

/-! ### Generic lemmas about the index scans -/

theorem find?_range'_eq_some {p : Nat → Bool} : ∀ {n a j : Nat},
    (List.range' a n).find? p = some j →
    a ≤ j ∧ j < a + n ∧ p j = true ∧ ∀ k, a ≤ k → k < j → p k = false := by
  intro n
  induction n with
  | zero => intro a j h; simp [List.range'] at h
  | succ n ih =>
    intro a j h
    rw [List.range'_succ] at h
    by_cases hp : p a
    · rw [List.find?_cons_of_pos _ hp] at h
      cases h
      exact ⟨Nat.le_refl _, by omega, hp, fun k hk1 hk2 => by omega⟩
    · rw [List.find?_cons_of_neg _ hp] at h
      obtain ⟨h1, h2, h3, h4⟩ := ih h
      refine ⟨by omega, by omega, h3, fun k hk1 hk2 => ?_⟩
      rcases Nat.eq_or_lt_of_le hk1 with rfl | hlt
      · exact Bool.eq_false_iff.mpr hp
      · exact h4 k hlt hk2

theorem find?_range'_eq_none {p : Nat → Bool} {a n : Nat}
    (h : (List.range' a n).find? p = none) :
    ∀ k, a ≤ k → k < a + n → p k = false := by
  intro k hk1 hk2
  have hmem : k ∈ List.range' a n := List.mem_range'_1.mpr ⟨hk1, hk2⟩
  exact Bool.eq_false_iff.mpr (List.find?_eq_none.mp h k hmem)

theorem find?_congr_pred {p q : Nat → Bool} : ∀ {l : List Nat},
    (∀ k ∈ l, p k = q k) → l.find? p = l.find? q := by
  intro l
  induction l with
  | nil => intro _; rfl
  | cons a l ih =>
    intro h
    have ha := h a (List.mem_cons_self a l)
    by_cases hp : p a
    · rw [List.find?_cons_of_pos _ hp, List.find?_cons_of_pos _ (ha ▸ hp)]
    · rw [List.find?_cons_of_neg _ hp, List.find?_cons_of_neg _ (ha ▸ hp)]
      exact ih fun k hk => h k (List.mem_cons_of_mem a hk)

theorem getLine_eq_getElem {lines : List Str} {i : Nat} (h : i < lines.length) :
    getLine lines i = lines[i] := by
  simp [getLine, List.getD_eq_getElem?_getD, List.getElem?_eq_getElem h]

theorem sliceLines_eq_map {lines : List Str} : ∀ {n i : Nat}, i + n ≤ lines.length →
    (lines.drop i).take n = (List.range' i n).map (getLine lines) := by
  intro n
  induction n with
  | zero => intro i _; simp [List.range']
  | succ n ih =>
    intro i h
    have hi : i < lines.length := by omega
    rw [List.drop_eq_getElem_cons hi, List.range'_succ i n 1, List.map_cons,
      List.take_succ_cons, getLine_eq_getElem hi]
    exact congrArg _ (ih (by omega))

/-! ### Lemmas about `trimBlankEnd` and `computeEndLine` -/

theorem trimBlankEnd_le (lines : List Str) (s : Nat) : ∀ k, trimBlankEnd lines s k ≤ k := by
  intro k
  induction k with
  | zero => simp [trimBlankEnd]
  | succ k ih =>
    rw [trimBlankEnd]
    split
    · exact Nat.le_trans ih (Nat.le_succ k)
    · exact Nat.le_refl _

theorem trimBlankEnd_ge (lines : List Str) (s : Nat) :
    ∀ k, s ≤ k → s ≤ trimBlankEnd lines s k := by
  intro k
  induction k with
  | zero => intro h; simpa [trimBlankEnd] using h
  | succ k ih =>
    intro _
    rw [trimBlankEnd]
    split
    · next hc => exact ih (by omega)
    · omega

theorem trimBlankEnd_blank_above (lines : List Str) (s : Nat) :
    ∀ k m, trimBlankEnd lines s k < m → m ≤ k → jsTrim (getLine lines m) = [] := by
  intro k
  induction k with
  | zero => intro m h1 h2; omega
  | succ k ih =>
    intro m h1 h2
    rw [trimBlankEnd] at h1
    revert h1
    split
    · next hc =>
      intro h1
      rcases Nat.eq_or_lt_of_le h2 with rfl | hlt
      · exact hc.2
      · exact ih m h1 (by omega)
    · intro h1; omega

theorem trimBlankEnd_self_or_nonblank (lines : List Str) (s : Nat) :
    ∀ k, s ≤ k → trimBlankEnd lines s k = s ∨
      jsTrim (getLine lines (trimBlankEnd lines s k)) ≠ [] := by
  intro k
  induction k with
  | zero =>
    intro h
    left
    simp [trimBlankEnd]
    omega
  | succ k ih =>
    intro h
    rw [trimBlankEnd]
    split
    · next hc => exact ih (by omega)
    · next hc =>
      rcases Nat.eq_or_lt_of_le h with rfl | hlt
      · exact Or.inl rfl
      · right
        intro hblank
        exact hc ⟨by omega, hblank⟩

theorem computeEndLine_ge {lines : List Str} {i : Nat} (h : i < lines.length) :
    i ≤ computeEndLine lines i := by
  rw [computeEndLine]
  split
  · next j hj =>
    obtain ⟨h1, _, _, _⟩ := find?_range'_eq_some hj
    exact trimBlankEnd_ge lines i (j - 1) (by omega)
  · exact trimBlankEnd_ge lines i (lines.length - 1) (by omega)

theorem computeEndLine_lt {lines : List Str} {i : Nat} (h : i < lines.length) :
    computeEndLine lines i < lines.length := by
  rw [computeEndLine]
  split
  · next j hj =>
    obtain ⟨h1, h2, _, _⟩ := find?_range'_eq_some hj
    have := trimBlankEnd_le lines i (j - 1)
    omega
  · have := trimBlankEnd_le lines i (lines.length - 1)
    omega

theorem computeEndLine_no_directive {lines : List Str} {i : Nat} (h : i < lines.length) :
    ∀ k, i < k → k ≤ computeEndLine lines i →
      isDirectiveLine (getLine lines k) = false := by
  intro k hk1 hk2
  rw [computeEndLine] at hk2
  revert hk2
  split
  · next j hj =>
    intro hk2
    obtain ⟨h1, h2, h3, h4⟩ := find?_range'_eq_some hj
    have hle := trimBlankEnd_le lines i (j - 1)
    exact h4 k (by omega) (by omega)
  · next hnone =>
    intro hk2
    have hle := trimBlankEnd_le lines i (lines.length - 1)
    exact find?_range'_eq_none hnone k (by omega) (by omega)

/-- The property asserted by the specification for a block's end line:
`e` is the last non-blank line strictly before the next directive line
after the block's start, or the last non-blank line of the document when
no directive follows. -/
def LastNonBlankBeforeNextDir (lines : List Str) (s e : Nat) : Prop :=
  match findDirFrom lines s with
  | some j =>
    e < j ∧ jsTrim (getLine lines e) ≠ [] ∧
      ∀ k, e < k → k < j → jsTrim (getLine lines k) = []
  | none =>
    e < lines.length ∧ jsTrim (getLine lines e) ≠ [] ∧
      ∀ k, e < k → k < lines.length → jsTrim (getLine lines k) = []

theorem computeEndLine_some {lines : List Str} {i j : Nat}
    (hfd : findDirFrom lines i = some j) :
    computeEndLine lines i = trimBlankEnd lines i (j - 1) := by
  rw [computeEndLine, hfd]

theorem computeEndLine_none {lines : List Str} {i : Nat}
    (hfd : findDirFrom lines i = none) :
    computeEndLine lines i = trimBlankEnd lines i (lines.length - 1) := by
  rw [computeEndLine, hfd]

theorem lastNonBlank_some {lines : List Str} {s e j : Nat}
    (hfd : findDirFrom lines s = some j) :
    LastNonBlankBeforeNextDir lines s e ↔
      (e < j ∧ jsTrim (getLine lines e) ≠ [] ∧
        ∀ k, e < k → k < j → jsTrim (getLine lines k) = []) := by
  rw [LastNonBlankBeforeNextDir, hfd]

theorem lastNonBlank_none {lines : List Str} {s e : Nat}
    (hfd : findDirFrom lines s = none) :
    LastNonBlankBeforeNextDir lines s e ↔
      (e < lines.length ∧ jsTrim (getLine lines e) ≠ [] ∧
        ∀ k, e < k → k < lines.length → jsTrim (getLine lines k) = []) := by
  rw [LastNonBlankBeforeNextDir, hfd]

theorem computeEndLine_lastNonBlank {lines : List Str} {i : Nat}
    (h : i < lines.length) (hnb : jsTrim (getLine lines i) ≠ []) :
    LastNonBlankBeforeNextDir lines i (computeEndLine lines i) := by
  rcases hfd : findDirFrom lines i with _ | j
  · rw [lastNonBlank_none hfd, computeEndLine_none hfd]
    have hle := trimBlankEnd_le lines i (lines.length - 1)
    refine ⟨by omega, ?_, ?_⟩
    · rcases trimBlankEnd_self_or_nonblank lines i (lines.length - 1) (by omega) with heq | hne
      · rw [heq]; exact hnb
      · exact hne
    · intro k hk1 hk2
      exact trimBlankEnd_blank_above lines i (lines.length - 1) k hk1 (by omega)
  · obtain ⟨h1, h2, h3, h4⟩ := find?_range'_eq_some hfd
    rw [lastNonBlank_some hfd, computeEndLine_some hfd]
    have hle := trimBlankEnd_le lines i (j - 1)
    refine ⟨by omega, ?_, ?_⟩
    · rcases trimBlankEnd_self_or_nonblank lines i (j - 1) (by omega) with heq | hne
      · rw [heq]; exact hnb
      · exact hne
    · intro k hk1 hk2
      exact trimBlankEnd_blank_above lines i (j - 1) k hk1 (by omega)

theorem headerMatch_ne_nil {s : Str} {nm : Str} (h : headerMatch s = some nm) :
    s ≠ [] := by
  intro hs
  rw [hs] at h
  simp [headerMatch] at h

/-! ### Parser invariants -/

theorem parseFromF_facts (lines : List Str) : ∀ (fuel i : Nat),
    lines.length ≤ i + fuel →
    ∀ m ∈ parseFromF lines fuel i,
      i ≤ m.startLine ∧ m.startLine < lines.length ∧
      headerMatch (jsTrim (getLine lines m.startLine)) = some m.name ∧
      m.endLine = computeEndLine lines m.startLine ∧
      m.configBlock = joinLines (sliceLines lines m.startLine m.endLine) := by
  intro fuel
  induction fuel with
  | zero => intro i h m hm; simp [parseFromF] at hm
  | succ fuel ih =>
    intro i h m hm
    rw [parseFromF] at hm
    by_cases hi : i < lines.length
    · rw [if_pos hi] at hm
      rcases hh : headerMatch (jsTrim (getLine lines i)) with _ | nm
      · rw [hh] at hm
        obtain ⟨h1, h2, h3, h4, h5⟩ := ih (i + 1) (by omega) m hm
        exact ⟨by omega, h2, h3, h4, h5⟩
      · rw [hh] at hm
        rcases List.mem_cons.mp hm with rfl | hm'
      
        · exact ⟨Nat.le_refl _, hi, hh, rfl, rfl⟩
        · have hge := computeEndLine_ge hi
          obtain ⟨h1, h2, h3, h4, h5⟩ := ih (computeEndLine lines i + 1) (by omega) m hm'
          exact ⟨by omega, h2, h3, h4, h5⟩
    · rw [if_neg hi] at hm
      simp at hm

theorem parseFromF_chain (lines : List Str) : ∀ (fuel i : Nat),
    lines.length ≤ i + fuel →
    List.Chain' (fun a b => a.endLine < b.startLine) (parseFromF lines fuel i) := by
  intro fuel
  induction fuel with
  | zero => intro i h; simp [parseFromF]
  | succ fuel ih =>
    intro i h
    rw [parseFromF]
    by_cases hi : i < lines.length
    · rw [if_pos hi]
      rcases hh : headerMatch (jsTrim (getLine lines i)) with _ | nm
      · exact ih (i + 1) (by omega)
      · have hge := computeEndLine_ge hi
        refine List.chain'_cons'.mpr ⟨?_, ih (computeEndLine lines i + 1) (by omega)⟩
        intro b hb
        have hbmem := List.mem_of_mem_head? hb
        obtain ⟨h1, _, _, _, _⟩ :=
          parseFromF_facts lines fuel (computeEndLine lines i + 1) (by omega) b hbmem
        show computeEndLine lines i < b.startLine
        omega
    · rw [if_neg hi]
      simp

/-- Membership test for a line index lying inside some parsed block. -/
def inSomeBlock (ms : List ModelInfo) (k : Nat) : Bool :=
  ms.any (fun m => decide (m.startLine ≤ k) && decide (k ≤ m.endLine))

theorem inSomeBlock_false_of_lt {ms : List ModelInfo} {i : Nat}
    (h : ∀ m ∈ ms, i < m.startLine) : inSomeBlock ms i = false := by
  rw [inSomeBlock, List.any_eq_false]
  intro m hm
  have := h m hm
  simp
  omega

theorem parseFromF_cover (lines : List Str) : ∀ (fuel i : Nat),
    lines.length ≤ i + fuel →
    ((parseFromF lines fuel i).map
        (fun m => sliceLines lines m.startLine m.endLine)).flatten
      = ((List.range' i (lines.length - i)).filter
          (fun k => inSomeBlock (parseFromF lines fuel i) k)).map (getLine lines) := by
  intro fuel
  induction fuel with
  | zero =>
    intro i h
    have : lines.length - i = 0 := by omega
    simp [parseFromF, this, List.range']
  | succ fuel ih =>
    intro i h
    by_cases hi : i < lines.length
    · rcases hh : headerMatch (jsTrim (getLine lines i)) with _ | nm
      · have hstep : parseFromF lines (fuel + 1) i = parseFromF lines fuel (i + 1) := by
          rw [parseFromF, if_pos hi, hh]
        rw [hstep]
        have hr : List.range' i (lines.length - i)
            = i :: List.range' (i + 1) (lines.length - (i + 1)) := by
          have : lines.length - i = (lines.length - (i + 1)) + 1 := by omega
          rw [this, List.range'_succ]
        rw [hr, List.filter_cons]
        have hfalse : inSomeBlock (parseFromF lines fuel (i + 1)) i = false := by
          refine inSomeBlock_false_of_lt ?_
          intro m hm
          have := (parseFromF_facts lines fuel (i + 1) (by omega) m hm).1
          omega
        rw [hfalse]
        simp only [Bool.false_eq_true, if_false]
        exact ih (i + 1) (by omega)
      · have hge := computeEndLine_ge hi
        have hlt := computeEndLine_lt hi
        set e := computeEndLine lines i with he
        have hstep : parseFromF lines (fuel + 1) i
            = { name := nm, configBlock := joinLines (sliceLines lines i e),
                startLine := i, endLine := e } :: parseFromF lines fuel (e + 1) := by
          rw [parseFromF, if_pos hi, hh]
        rw [hstep]
        set blk : ModelInfo :=
          { name := nm, configBlock := joinLines (sliceLines lines i e),
            startLine := i, endLine := e } with hblk
        have hsplit : List.range' i (lines.length - i)
            = List.range' i (e + 1 - i) ++ List.range' (e + 1) (lines.length - (e + 1)) := by
          have h1 := List.range'_append i (e + 1 - i) (lines.length - (e + 1)) 1
          rw [Nat.one_mul] at h1
          have h2 : i + (e + 1 - i) = e + 1 := by omega
          have h3 : lines.length - (e + 1) + (e + 1 - i) = lines.length - i := by omega
          rw [h2, h3] at h1
          exact h1.symm
        rw [hsplit, List.filter_append]
        have hchunk1 : (List.range' i (e + 1 - i)).filter
            (fun k => inSomeBlock (blk :: parseFromF lines fuel (e + 1)) k)
            = List.range' i (e + 1 - i) := by
          refine List.filter_eq_self.mpr ?_
          intro k hk
          have hk' := List.mem_range'_1.mp hk
          rw [inSomeBlock, List.any_cons]
          have : (decide (blk.startLine ≤ k) && decide (k ≤ blk.endLine)) = true := by
            rw [hblk]
            simp
            omega
          rw [this, Bool.true_or]
        have hchunk2 : (List.range' (e + 1) (lines.length - (e + 1))).filter
            (fun k => inSomeBlock (blk :: parseFromF lines fuel (e + 1)) k)
            = (List.range' (e + 1) (lines.length - (e + 1))).filter
              (fun k => inSomeBlock (parseFromF lines fuel (e + 1)) k) := by
          refine List.filter_congr ?_
          intro k hk
          have hk' := List.mem_range'_1.mp hk
          rw [inSomeBlock, List.any_cons]
          have : (decide (blk.startLine ≤ k) && decide (k ≤ blk.endLine)) = false := by
            rw [hblk]
            simp
            omega
          rw [this, Bool.false_or]
          rfl
        rw [hchunk1, hchunk2, List.map_append, List.map_cons, List.flatten_cons]
        have hslice : sliceLines lines i e
            = (List.range' i (e + 1 - i)).map (getLine lines) := by
          rw [sliceLines]
          exact sliceLines_eq_map (by omega)
        rw [← hslice]
        exact congrArg _ (ih (e + 1) (by omega))
    · have hstep : parseFromF lines (fuel + 1) i = [] := by
        rw [parseFromF, if_neg hi]
      have : lines.length - i = 0 := by omega
      rw [hstep, this]
      simp [List.range']

/-! ### Claim C4 - parser block invariants -/

/-- C4: for every input document, the blocks returned by
`parseExistingModels` are non-overlapping and strictly ordered by
`startLine` (each block ends strictly before the next one starts), and
each block's `endLine` is the last non-blank line strictly before the
next `#if`/`#elif`/`#else`/`#endif` directive line after its start, or
the last non-blank line of the document if no such directive follows. -/
theorem C4_parser_blocks_ordered_and_endline (content : Str) :
    List.Chain' (fun a b => a.endLine < b.startLine) (parseExistingModels content) ∧
    ∀ m ∈ parseExistingModels content,
      m.startLine ≤ m.endLine ∧
      LastNonBlankBeforeNextDir (splitLinesRN content) m.startLine m.endLine := by
  constructor
  · exact parseFromF_chain (splitLinesRN content) (splitLinesRN content).length 0
      (by omega)
  · intro m hm
    obtain ⟨h1, h2, h3, h4, h5⟩ :=
      parseFromF_facts (splitLinesRN content) (splitLinesRN content).length 0
        (by omega) m hm
    have hnb : jsTrim (getLine (splitLinesRN content) m.startLine) ≠ [] :=
      headerMatch_ne_nil h3
    refine ⟨?_, ?_⟩
    · rw [h4]
      exact computeEndLine_ge h2
    · rw [h4]
      exact computeEndLine_lastNonBlank h2 hnb

/-- Witness for C4 at a concrete document: the first block of
`#if A / x / (blank) / #elif B / y` spans lines 0-1 and satisfies the
end-line characterization. -/
theorem C4_witness :
    ({ name := str "A", configBlock := str "#if A\nx", startLine := 0, endLine := 1
       : ModelInfo } ∈ parseExistingModels (str "#if A\nx\n\n#elif B\ny")) ∧
    ((0 : Nat) ≤ 1 ∧
      LastNonBlankBeforeNextDir (splitLinesRN (str "#if A\nx\n\n#elif B\ny")) 0 1) :=
  ⟨by decide,
   (C4_parser_blocks_ordered_and_endline (str "#if A\nx\n\n#elif B\ny")).2
     { name := str "A", configBlock := str "#if A\nx", startLine := 0, endLine := 1 }
     (by decide)⟩

/-! ### Claim C5 - re-concatenation of parsed blocks -/

/-- Concatenation of the parsed blocks' line ranges, in order. -/
def reconstructLines (lines : List Str) (ms : List ModelInfo) : List Str :=
  (ms.map (fun m => sliceLines lines m.startLine m.endLine)).flatten

/-- The document's lines whose index lies inside some parsed block. -/
def inBlockLines (lines : List Str) (ms : List ModelInfo) : List Str :=
  ((List.range lines.length).filter (inSomeBlock ms)).map (getLine lines)

/-- C5 (amended): re-concatenating each parsed block's raw text in order
reproduces exactly the document lines whose index falls inside some
block; every line outside all blocks - blank separators, but also
`#else`/`#endif` terminators and any other text outside recognized arms -
is dropped, so the original claim's "modulo blank-line trimming" holds
exactly when all out-of-block lines are blank. -/
theorem C5_parse_reconstructs_inblock_lines (content : Str) :
    reconstructLines (splitLinesRN content) (parseExistingModels content)
      = inBlockLines (splitLinesRN content) (parseExistingModels content) := by
  have h := parseFromF_cover (splitLinesRN content) (splitLinesRN content).length 0
    (by omega)
  rw [Nat.sub_zero] at h
  rw [reconstructLines, inBlockLines, List.range_eq_range' (splitLinesRN content).length]
  exact h

/-- C5 counterexample: for the well-formed document
`#if A / #define X 1 / #endif`, the re-concatenation of the parsed
blocks' raw text drops the non-blank line `#endif`, so parse-and-rejoin
does not reproduce the document modulo blank-line trimming. -/
theorem C5_counterexample :
    reconstructLines (splitLinesRN (str "#if A\n#define X 1\n#endif"))
        (parseExistingModels (str "#if A\n#define X 1\n#endif"))
      = [str "#if A", str "#define X 1"] ∧
    str "#endif" ∈ splitLinesRN (str "#if A\n#define X 1\n#endif") ∧
    jsTrim (str "#endif") ≠ [] ∧
    str "#endif" ∉ reconstructLines (splitLinesRN (str "#if A\n#define X 1\n#endif"))
        (parseExistingModels (str "#if A\n#define X 1\n#endif")) := by
  decide

/-! ### Claim C7 - the insertion point never falls inside the block -/

/-- C7: for every document and every parsed block in it, the
insertion-point search starting from the block's end line never returns a
line index inside the block's own line range. -/
theorem C7_insertion_point_outside_block (content : Str) (m : ModelInfo) (r : Nat)
    (hm : m ∈ parseExistingModels content)
    (hr : findNextPreprocessorLine (splitLinesRN content) m.endLine = some r) :
    ¬ (m.startLine ≤ r ∧ r ≤ m.endLine) := by
  obtain ⟨h1, h2, h3, h4, h5⟩ :=
    parseFromF_facts (splitLinesRN content) (splitLinesRN content).length 0
      (by omega) m hm
  rw [findNextPreprocessorLine] at hr
  split at hr
  · next j hj =>
    cases hr
    obtain ⟨hj1, _, _, _⟩ := find?_range'_eq_some hj
    omega
  · rw [lastEndifIdx] at hr
    have hp := List.find?_some hr
    have hEnd : jsTrim (getLine (splitLinesRN content) r) = str "#endif" := by
      simpa using hp
    rintro ⟨hr1, hr2⟩
    rcases Nat.eq_or_lt_of_le hr1 with heq | hlt
    · rw [← heq] at hEnd
      rw [hEnd] at h3
      have hnone : headerMatch (str "#endif") = none := by decide
      rw [hnone] at h3
      cases h3
    · have hdir : isDirectiveLine (getLine (splitLinesRN content) r) = false := by
        refine computeEndLine_no_directive h2 r hlt ?_
        rw [← h4]
        exact hr2
      have hdir' : isDirectiveLine (getLine (splitLinesRN content) r) = true := by
        rw [isDirectiveLine, hEnd]
        decide
      rw [hdir'] at hdir
      cases hdir

/-- Witness for C7 at a concrete document: the block `#if A / x` of
`#if A / x / #endif` has range 0-1 and the planner returns line 2. -/
theorem C7_witness :
    ({ name := str "A", configBlock := str "#if A\nx", startLine := 0, endLine := 1
       : ModelInfo } ∈ parseExistingModels (str "#if A\nx\n#endif")) ∧
    findNextPreprocessorLine (splitLinesRN (str "#if A\nx\n#endif")) 1 = some 2 ∧
    ¬ ((0 : Nat) ≤ 2 ∧ 2 ≤ 1) :=
  ⟨by decide, by decide,
   C7_insertion_point_outside_block (str "#if A\nx\n#endif")
     { name := str "A", configBlock := str "#if A\nx", startLine := 0, endLine := 1 }
     2 (by decide) (by decide)⟩

/-! ### Claim C10 - the parser matches against the trimmed line -/

/-- The structural content of a parsed block (everything except the raw
text, which intentionally keeps the original spelling). -/
def blockShape (m : ModelInfo) : Str × Nat × Nat := (m.name, m.startLine, m.endLine)

theorem isDirectiveLine_congr {l1 l2 : Str} (h : jsTrim l1 = jsTrim l2) :
    isDirectiveLine l1 = isDirectiveLine l2 := by
  rw [isDirectiveLine, isDirectiveLine, h]

theorem findDirFrom_congr {lines1 lines2 : List Str}
    (hlen : lines1.length = lines2.length)
    (htrim : ∀ k, jsTrim (getLine lines1 k) = jsTrim (getLine lines2 k)) (i : Nat) :
    findDirFrom lines1 i = findDirFrom lines2 i := by
  rw [findDirFrom, findDirFrom, hlen]
  refine find?_congr_pred ?_
  intro k _
  exact isDirectiveLine_congr (htrim k)

theorem trimBlankEnd_congr {lines1 lines2 : List Str}
    (htrim : ∀ k, jsTrim (getLine lines1 k) = jsTrim (getLine lines2 k)) (s : Nat) :
    ∀ k, trimBlankEnd lines1 s k = trimBlankEnd lines2 s k := by
  intro k
  induction k with
  | zero => rfl
  | succ k ih =>
    rw [trimBlankEnd, trimBlankEnd, htrim (k + 1), ih]

theorem computeEndLine_congr {lines1 lines2 : List Str}
    (hlen : lines1.length = lines2.length)
    (htrim : ∀ k, jsTrim (getLine lines1 k) = jsTrim (getLine lines2 k)) (i : Nat) :
    computeEndLine lines1 i = computeEndLine lines2 i := by
  rw [computeEndLine, computeEndLine, findDirFrom_congr hlen htrim i, hlen]
  cases findDirFrom lines2 i with
  | none => exact trimBlankEnd_congr htrim i (lines2.length - 1)
  | some j => exact trimBlankEnd_congr htrim i (j - 1)

theorem parseFromF_trim_congr {lines1 lines2 : List Str}
    (hlen : lines1.length = lines2.length)
    (htrim : ∀ k, jsTrim (getLine lines1 k) = jsTrim (getLine lines2 k)) :
    ∀ fuel i, (parseFromF lines1 fuel i).map blockShape
      = (parseFromF lines2 fuel i).map blockShape := by
  intro fuel
  induction fuel with
  | zero => intro i; rfl
  | succ fuel ih =>
    intro i
    rw [parseFromF, parseFromF, ← hlen]
    by_cases hi : i < lines1.length
    · rw [if_pos hi, if_pos hi, ← htrim i]
      cases hh : headerMatch (jsTrim (getLine lines1 i)) with
      | none => exact ih (i + 1)
      | some nm =>
        rw [List.map_cons, List.map_cons]
        rw [computeEndLine_congr hlen htrim i]
        rw [ih (computeEndLine lines2 i + 1)]
        rfl
    · rw [if_neg hi, if_neg hi]

theorem getLine_set_ne {l : List Str} {i k : Nat} (h : i ≠ k) (x : Str) :
    getLine (l.set i x) k = getLine l k := by
  induction l generalizing i k with
  | nil => rfl
  | cons a l ih =>
    cases i with
    | zero =>
      cases k with
      | zero => exact absurd rfl h
      | succ k => rfl
    | succ i =>
      cases k with
      | zero => rfl
      | succ k => exact ih (fun hh => h (by omega)) 

theorem jsTrim_ws_append {w : Str} (hw : ∀ c ∈ w, isWsChar c = true) (s : Str) :
    jsTrim (w ++ s) = jsTrim s := by
  rw [jsTrim, jsTrim]
  have hdrop : (w ++ s).dropWhile isWsChar = s.dropWhile isWsChar := by
    induction w with
    | nil => rfl
    | cons c w ih =>
      rw [List.cons_append, List.dropWhile_cons_of_pos (hw c (List.mem_cons_self c w))]
      exact ih (fun c hc => hw c (List.mem_cons_of_mem _ hc))
  rw [hdrop]

/-- C10: the parser matches conditional directives against the
whitespace-trimmed line - prepending whitespace to any line of a
document changes neither the names, the start lines, nor the end lines
of the parsed blocks, while each block's raw text is still taken
verbatim (indentation included) from the modified document. -/
theorem C10_parser_trims_directive_lines (doc : List Str) (i : Nat) (w : Str)
    (hw : ∀ c ∈ w, isWsChar c = true) :
    (parseLines (doc.set i (w ++ getLine doc i))).map blockShape
        = (parseLines doc).map blockShape ∧
    ∀ m ∈ parseLines (doc.set i (w ++ getLine doc i)),
      m.configBlock
        = joinLines (sliceLines (doc.set i (w ++ getLine doc i)) m.startLine m.endLine) := by
  have hlen : (doc.set i (w ++ getLine doc i)).length = doc.length := by simp
  have htrim : ∀ k, jsTrim (getLine (doc.set i (w ++ getLine doc i)) k)
      = jsTrim (getLine doc k) := by
    intro k
    by_cases hk : i = k
    · subst hk
      by_cases hi : i < doc.length
      · have : getLine (doc.set i (w ++ getLine doc i)) i = w ++ getLine doc i := by
          rw [getLine, getLine]
          rw [List.getD_eq_getElem?_getD, List.getD_eq_getElem?_getD]
          rw [List.getElem?_set_self' ]
          rw [List.getElem?_eq_getElem hi]
          simp
        rw [this]
        exact jsTrim_ws_append hw (getLine doc i)
      · have hset : doc.set i (w ++ getLine doc i) = doc := by
          apply List.set_eq_of_length_le
          omega
        rw [hset]
    · rw [getLine_set_ne hk]
  constructor
  · rw [parseLines, parseLines, hlen]
    exact parseFromF_trim_congr hlen htrim doc.length 0
  · intro m hm
    exact (parseFromF_facts _ _ 0 (by omega) m hm).2.2.2.2

/-- Witness for C10: indenting the guard line `#elif AB` by two spaces
leaves the parsed structure unchanged. -/
theorem C10_witness :
    (∀ c ∈ str "  ", isWsChar c = true) ∧
    (parseLines ([str "#elif AB", str "#define X 1"].set 0
        (str "  " ++ getLine [str "#elif AB", str "#define X 1"] 0))).map blockShape
      = (parseLines [str "#elif AB", str "#define X 1"]).map blockShape :=
  ⟨by decide,
   (C10_parser_trims_directive_lines [str "#elif AB", str "#define X 1"] 0 (str "  ")
     (by decide)).1⟩

/-! ### Claim C1 - the synthesis scenario -/

/-- C1: for the reference block headed `#if PGEL_KFW72C_4_12K_3S_001`
containing `#define EEPROMDATA_PGEL_72C_4_1980`, synthesizing with new
name `PGEL_KFW72C_4_12K_3S_002`, customer `PGEL` and EEPROM version
`1981` yields the header line `#elif PGEL_KFW72C_4_12K_3S_002` and the
macro line `#define EEPROMDATA_PGEL_72C_4_1981`. -/
theorem C1_synthesis_scenario :
    extractBoardModelFromName (str "PGEL_KFW72C_4_12K_3S_001")
      = some (str "KFW72C_4") ∧
    generateEepromMacro (extractBoardModelFromName (str "PGEL_KFW72C_4_12K_3S_001"))
        (some (str "PGEL")) (some (str "1981"))
      = some (str "EEPROMDATA_PGEL_72C_4_1981") ∧
    jsSplit '\n' (createModelConfiguration
        (str "#if PGEL_KFW72C_4_12K_3S_001\n#define EEPROMDATA_PGEL_72C_4_1980")
        (str "PGEL_KFW72C_4_12K_3S_001") (str "PGEL_KFW72C_4_12K_3S_002")
        (str "EEPROMDATA_PGEL_72C_4_1981") none none (str "PGEL"))
      = [str "#elif PGEL_KFW72C_4_12K_3S_002",
         str "#define EEPROMDATA_PGEL_72C_4_1981"] := by
  decide

/-! ### Claim C2 - pattern priority of board-model extraction -/

/-- C2: board-model extraction tries its patterns in a fixed priority
order (AC/DC-suffixed first) and returns the first match, returning
`none` when no pattern matches; in particular `PGEL_KFW35C_7_AC_001`
extracts to `KFW35C_7_AC` - which the suffixed pattern yields - and not
to the plain pattern's result `KFW35C_7`. -/
theorem C2_pattern_priority :
    (∀ name r, firstMatch matchP1At name = some r →
      extractBoardModelFromName name = some r) ∧
    (∀ name, firstMatch matchP1At name = none → firstMatch matchP2At name = none →
      firstMatch matchP3At name = none → extractBoardModelFromName name = none) ∧
    extractBoardModelFromName (str "PGEL_KFW35C_7_AC_001") = some (str "KFW35C_7_AC") ∧
    firstMatch matchP3At (str "PGEL_KFW35C_7_AC_001") = some (str "KFW35C_7") ∧
    str "KFW35C_7_AC" ≠ str "KFW35C_7" := by
  refine ⟨?_, ?_, by decide, by decide, by decide⟩
  · intro name r h
    rw [extractBoardModelFromName, h]
  · intro name h1 h2 h3
    rw [extractBoardModelFromName, h1, h2, h3]

/-- Witness for C2: the suffixed pattern matches `PGEL_KFW35C_7_AC_001`
and its result is what extraction returns. -/
theorem C2_witness :
    firstMatch matchP1At (str "PGEL_KFW35C_7_AC_001") = some (str "KFW35C_7_AC") ∧
    extractBoardModelFromName (str "PGEL_KFW35C_7_AC_001") = some (str "KFW35C_7_AC") :=
  ⟨by decide,
   C2_pattern_priority.1 (str "PGEL_KFW35C_7_AC_001") (str "KFW35C_7_AC") (by decide)⟩

/-! ### Claim C3 - EEPROM macro generation -/

/-- C3 counterexample: with all three inputs supplied - board model the
empty string, customer `PGEL`, version `1981` - generation still fails,
because the source's falsiness test also rejects empty strings; so
"fails if and only if an input is absent" is false as stated. -/
theorem C3_counterexample :
    generateEepromMacro (some []) (some (str "PGEL")) (some (str "1981")) = none ∧
    (some ([] : Str)) ≠ (none : Option Str) ∧
    (some (str "PGEL")) ≠ (none : Option Str) ∧
    (some (str "1981")) ≠ (none : Option Str) := by
  decide

/-- C3 (amended): generating the EEPROM macro fails if and only if the
board model, the customer token, or the version is absent *or the empty
string*; when all three are present and non-empty it returns exactly
`EEPROMDATA_<CUSTOMER>_<SIMPLIFIED_BOARD_MODEL>_<VERSION>` (customer and
version uppercased, the board model simplified by `simplifyBoardModel`,
i.e. uppercased with the `KFW` prefix token and any `_AC`/`_DC` suffix
token stripped). -/
theorem C3_amended (bm cn ev : Option Str) :
    (generateEepromMacro bm cn ev = none ↔
      (bm = none ∨ bm = some [] ∨ cn = none ∨ cn = some [] ∨
       ev = none ∨ ev = some [])) ∧
    (∀ b c e, bm = some b → cn = some c → ev = some e →
      b ≠ [] → c ≠ [] → e ≠ [] →
      generateEepromMacro bm cn ev
        = some (str "EEPROMDATA_" ++ toUpperStr c ++ '_' :: simplifyBoardModel b
                ++ '_' :: toUpperStr e)) := by
  constructor
  · rcases bm with _ | b
    · simp [generateEepromMacro]
    · rcases cn with _ | c
      · simp [generateEepromMacro]
      · rcases ev with _ | e
        · simp [generateEepromMacro]
        · by_cases hb : b = []
          · simp [generateEepromMacro, hb]
          · by_cases hc : c = []
            · simp [generateEepromMacro, hb, hc]
            · by_cases he : e = []
              · simp [generateEepromMacro, hb, hc, he]
              · simp [generateEepromMacro, hb, hc, he]
  · rintro b c e rfl rfl rfl hb hc he
    simp [generateEepromMacro, hb, hc, he]

/-- Witness for C3 (amended), at the C1 scenario's inputs; also grounds
the simplification: `KFW72C_4 ↦ 72C_4` and `kfw35c_7_ac ↦ 35C_7`. -/
theorem C3_witness :
    (generateEepromMacro (some (str "KFW72C_4")) (some (str "PGEL"))
        (some (str "1981"))
      = some (str "EEPROMDATA_" ++ toUpperStr (str "PGEL") ++ '_'
              :: simplifyBoardModel (str "KFW72C_4") ++ '_' :: toUpperStr (str "1981"))) ∧
    simplifyBoardModel (str "KFW72C_4") = str "72C_4" ∧
    simplifyBoardModel (str "kfw35c_7_ac") = str "35C_7" :=
  ⟨(C3_amended (some (str "KFW72C_4")) (some (str "PGEL")) (some (str "1981"))).2
      (str "KFW72C_4") (str "PGEL") (str "1981") rfl rfl rfl
      (by decide) (by decide) (by decide),
   by decide, by decide⟩

/-! ### Claim C9 - the alignment profile -/

/-- The value-column formula stated by the specification, over the range
actually scanned by the analyzer (`alignIdxs`): maximum visual length of
the `#define` prefixes, floored by the two motor-type prototype widths at
the first `#define` line's indentation; fallback to the header's
indentation plus one indent level and the default prototype width when
the scanned range contains no `#define` line. -/
def specAlignment (lines : List Str) (s : Nat) : Nat × Str :=
  match (alignIdxs lines s).filter
      (fun k => (definePrefixMatch (getLine lines k)).isSome) with
  | [] =>
    let ind := (getLine lines s).takeWhile isWsChar ++ str "    "
    (getVisualLength (ind ++ str "#define MOTOR2_TYPE "), ind)
  | k0 :: ks =>
    let ind := (getLine lines k0).takeWhile isWsChar
    let mx := (((k0 :: ks).map
      (fun k => getVisualLength ((definePrefixMatch (getLine lines k)).getD []))).foldr
        max 0)
    (max (max mx (getVisualLength (ind ++ str "#define MOTOR1_TYPE ")))
       (getVisualLength (ind ++ str "#define MOTOR2_TYPE ")), ind)

theorem alignLoop_eq (lines : List Str) : ∀ (idxs : List Nat) (vc : Nat) (ind? : Option Str),
    alignLoop lines idxs vc ind?
      = (max vc
          (((idxs.filter (fun k => (definePrefixMatch (getLine lines k)).isSome)).map
            (fun k => getVisualLength ((definePrefixMatch (getLine lines k)).getD []))).foldr
              max 0),
         match idxs.filter (fun k => (definePrefixMatch (getLine lines k)).isSome) with
         | [] => ind?
         | k0 :: _ => some (ind?.getD ((getLine lines k0).takeWhile isWsChar))) := by
  intro idxs
  induction idxs with
  | nil => intro vc ind?; simp [alignLoop]
  | cons k rest ih =>
    intro vc ind?
    rw [alignLoop]
    cases hk : definePrefixMatch (getLine lines k) with
    | some pre =>
      dsimp only
      rw [ih, List.filter_cons]
      simp only [hk, Option.isSome_some, if_true, List.map_cons, List.foldr_cons,
        Option.getD_some]
      refine Prod.ext ?_ ?_
      · exact max_assoc vc (getVisualLength pre) _
      · cases rest.filter (fun k => (definePrefixMatch (getLine lines k)).isSome) with
        | nil => rfl
        | cons k0 ks => simp
    | none =>
      dsimp only
      rw [ih, List.filter_cons]
      simp only [hk, Option.isSome_none, Bool.false_eq_true, if_false]

/-- C9 counterexample: in
`#elif A / #if B / #define VERYLONGMACRONAME_PADDING_X 1 / #endif` the
parsed block is the single header line 0-0 and contains no `#define`
line, so the claim's fallback clause demands indentation `"    "` and the
default prototype width `24`; but the analyzer's scan runs past the
nested `#if` up to the `#endif` and returns `(36, "")`. -/
theorem C9_counterexample :
    ({ name := str "A", configBlock := str "#elif A", startLine := 0, endLine := 0
       : ModelInfo } ∈ parseLines [str "#elif A", str "#if B",
        str "#define VERYLONGMACRONAME_PADDING_X 1", str "#endif"]) ∧
    (definePrefixMatch (getLine [str "#elif A", str "#if B",
        str "#define VERYLONGMACRONAME_PADDING_X 1", str "#endif"] 0)).isSome = false ∧
    calculateAlignment [str "#elif A", str "#if B",
        str "#define VERYLONGMACRONAME_PADDING_X 1", str "#endif"] 0 = (36, []) ∧
    ((36 : Nat), ([] : Str))
      ≠ (getVisualLength (str "    " ++ str "#define MOTOR2_TYPE "), str "    ") := by
  decide

/-- C9 (amended): for every document and start line, the computed
alignment profile equals the specification formula taken over the range
the analyzer scans - from the line after the block header to the line
before the next `#elif`/`#else`/`#endif` (a nested `#if` does not stop
the scan, so this range can extend past the parsed block's `endLine`):
the value column is the maximum visual length (tabs = 4 columns) of the
`#define` prefixes in that range, never less than either motor-type
prototype width at the first `#define` line's indentation; when the range
contains no `#define` line, the indentation falls back to the header's
indentation plus one indent level and the value column to the default
prototype width. -/
theorem C9_amended (lines : List Str) (s : Nat) :
    calculateAlignment lines s = specAlignment lines s := by
  rw [calculateAlignment, alignLoop_eq, specAlignment]
  cases hks : (alignIdxs lines s).filter
      (fun k => (definePrefixMatch (getLine lines k)).isSome) with
  | nil => simp
  | cons k0 ks => simp

/-! ### Claim C8 - the AlreadyPresent skip -/

/-- C8 counterexample: a parameter file consisting of the single line
`EEPROMDATA_PGEL_72C_4_1981` already contains the new macro, but because
no insertion anchor exists (the reference arm is not found and there is
no `#else` line) the synchronizer throws `NoInsertionPoint` - an error,
not the recoverable `AlreadyPresent` skip the claim promises. -/
theorem C8_counterexample :
    updateSystemParaC [str "EEPROMDATA_PGEL_72C_4_1981"]
        (str "#if X\n#define Y 1") (str "X")
        (str "EEPROMDATA_PGEL_72C_4_1981") (str "PGEL") = .errorThrown ∧
    containsSub (str "EEPROMDATA_PGEL_72C_4_1981")
        (joinLines [str "EEPROMDATA_PGEL_72C_4_1981"]) = true ∧
    ParaOutcome.errorThrown ≠ ParaOutcome.alreadyPresent := by
  decide

/-- C8 (amended): whenever the parameter file already contains the new
EEPROM macro, no edit is ever performed on it; and provided an insertion
anchor exists (the insertion-point computation succeeds), the update
reports `AlreadyPresent` - a recoverable skip, not an error - while the
primary file's own edit is still applied by the surrounding pipeline.
Without an anchor the update instead reports the `NoInsertionPoint`
error (still performing no edit). -/
theorem C8_amended (paraLines configLines : List Str) (ref : ModelInfo)
    (newName newMacro customer : Str) (sw ccn : Option Str) (i : Nat)
    (hins : paraInsertionPoint paraLines ref.configBlock ref.name customer = .found i)
    (hcont : containsSub newMacro (joinLines paraLines) = true) :
    updateSystemParaC paraLines ref.configBlock ref.name newMacro customer
      = .alreadyPresent ∧
    (∀ out, updateSystemParaC paraLines ref.configBlock ref.name newMacro customer
      ≠ .applied out) ∧
    runPrimaryAndPara configLines ref newName newMacro sw ccn customer paraLines
      = (applyPrimaryEdit configLines ref
          (createModelConfiguration ref.configBlock ref.name newName newMacro sw ccn
            customer),
         .alreadyPresent) := by
  have h1 : updateSystemParaC paraLines ref.configBlock ref.name newMacro customer
      = .alreadyPresent := by
    rw [updateSystemParaC, hins]
    simp [hcont]
  refine ⟨h1, ?_, ?_⟩
  · intro out
    rw [h1]
    intro hc
    cases hc
  · rw [runPrimaryAndPara, h1]

/-- Witness for C8 (amended): a parameter file with an `#else` anchor
that already contains the new macro is skipped with `AlreadyPresent`. -/
theorem C8_witness :
    paraInsertionPoint
        [str "#if A", str "#define EEPROMDATA_PGEL_72C_4_1981 1", str "#else", str "x"]
        (ModelInfo.mk (str "X") (str "#if X\ny") 0 1).configBlock
        (ModelInfo.mk (str "X") (str "#if X\ny") 0 1).name (str "PGEL") = .found 2 ∧
    containsSub (str "EEPROMDATA_PGEL_72C_4_1981")
      (joinLines [str "#if A", str "#define EEPROMDATA_PGEL_72C_4_1981 1", str "#else",
        str "x"]) = true ∧
    updateSystemParaC
        [str "#if A", str "#define EEPROMDATA_PGEL_72C_4_1981 1", str "#else", str "x"]
        (ModelInfo.mk (str "X") (str "#if X\ny") 0 1).configBlock
        (ModelInfo.mk (str "X") (str "#if X\ny") 0 1).name
        (str "EEPROMDATA_PGEL_72C_4_1981") (str "PGEL") = .alreadyPresent :=
  ⟨by decide, by decide,
   (C8_amended
      [str "#if A", str "#define EEPROMDATA_PGEL_72C_4_1981 1", str "#else", str "x"]
      [str "#if X", str "y"] (ModelInfo.mk (str "X") (str "#if X\ny") 0 1)
      (str "NEWNAME") (str "EEPROMDATA_PGEL_72C_4_1981") (str "PGEL") none none 2
      (by decide) (by decide)).1⟩

/-! ### Claim C6 - generic string lemmas -/

theorem hasLead_iff {p s : Str} : hasLead p s = true ↔ p = s.take p.length := by
  simp [hasLead]

theorem hasLead_self_append (p t : Str) : hasLead p (p ++ t) = true := by
  rw [hasLead_iff, List.take_append_eq_append_take, Nat.sub_self, List.take_zero,
    List.append_nil, List.take_length]

theorem hasLead_length_le {p s : Str} (h : hasLead p s = true) : p.length ≤ s.length := by
  rw [hasLead_iff] at h
  have := congrArg List.length h
  rw [List.length_take] at this
  omega

theorem hasLead_extend {p s t : Str} (h : hasLead p s = true) :
    hasLead p (s ++ t) = true := by
  have hle := hasLead_length_le h
  rw [hasLead_iff] at h ⊢
  rw [List.take_append_eq_append_take, Nat.sub_eq_zero_of_le hle, List.take_zero,
    List.append_nil]
  exact h

theorem hasLead_cons_iff {c : Char} {p s : Str} :
    hasLead (c :: p) s = true ↔ ∃ t, s = c :: t ∧ hasLead p t = true := by
  cases s with
  | nil => simp [hasLead]
  | cons c' t =>
    constructor
    · intro h
      rw [hasLead_iff, List.length_cons, List.take_succ_cons] at h
      injection h with h1 h2
      subst h1
      exact ⟨t, rfl, hasLead_iff.mpr h2⟩
    · rintro ⟨t', ht, hh⟩
      injection ht with h1 h2
      subst h1
      subst h2
      rw [hasLead_iff, List.length_cons, List.take_succ_cons, ← hasLead_iff.mp hh]

theorem hasLead_cons_head {c : Char} {p s : Str} (h : hasLead (c :: p) s = true) :
    ∃ t, s = c :: t :=
  ⟨(hasLead_cons_iff.mp h).choose, ((hasLead_cons_iff.mp h).choose_spec).1⟩

theorem dropWhile_ws_append {w : Str} (hw : ∀ c ∈ w, isWsChar c = true) (s : Str) :
    (w ++ s).dropWhile isWsChar = s.dropWhile isWsChar := by
  induction w with
  | nil => rfl
  | cons c w ih =>
    rw [List.cons_append, List.dropWhile_cons_of_pos (hw c (List.mem_cons_self c w))]
    exact ih (fun c hc => hw c (List.mem_cons_of_mem _ hc))

theorem takeWhile_all_append {pred : Char → Bool} {a : Str} (ha : ∀ c ∈ a, pred c = true)
    (b : Str) : (a ++ b).takeWhile pred = a ++ b.takeWhile pred := by
  induction a with
  | nil => rfl
  | cons c a ih =>
    rw [List.cons_append, List.takeWhile_cons_of_pos (ha c (List.mem_cons_self c a)),
      ih (fun c hc => ha c (List.mem_cons_of_mem _ hc))]
    rfl

theorem anyPos_iff {p : Str → Bool} {s : Str} :
    anyPos p s = true ↔ ∃ k, p (s.drop k) = true := by
  induction s with
  | nil =>
    rw [anyPos]
    constructor
    · intro h; exact ⟨0, h⟩
    · rintro ⟨k, hk⟩; simpa using hk
  | cons c s ih =>
    rw [anyPos, Bool.or_eq_true, ih]
    constructor
    · rintro (h | ⟨k, hk⟩)
      · exact ⟨0, h⟩
      · exact ⟨k + 1, hk⟩
    · rintro ⟨k, hk⟩
      cases k with
      | zero => exact Or.inl hk
      | succ k => exact Or.inr ⟨k, hk⟩

theorem containsSub_cons {pat : Str} {c : Char} {t : Str} :
    containsSub pat (c :: t) = (hasLead pat (c :: t) || containsSub pat t) := by
  rw [containsSub, findSub]
  by_cases h : hasLead pat (c :: t)
  · rw [if_pos h, h]; rfl
  · rw [if_neg h, (Bool.eq_false_iff.mpr h : hasLead pat (c :: t) = false),
      Bool.false_or, containsSub]
    cases findSub pat t <;> rfl

theorem containsSub_mid (pat A B : Str) : containsSub pat (A ++ pat ++ B) = true := by
  induction A with
  | nil =>
    rw [List.nil_append]
    cases hp : pat ++ B with
    | nil =>
      have : pat = [] := by
        cases pat with
        | nil => rfl
        | cons c t => simp at hp
      rw [this] at hp ⊢
      rw [containsSub, findSub]
      rfl
    | cons c t =>
      rw [containsSub_cons, ← hp, hasLead_self_append]
      rfl
  | cons c A ih =>
    rw [List.cons_append, List.cons_append, containsSub_cons, ih, Bool.or_true]

theorem findMatchPos_of_head {m : Str → Option Nat} {s : Str} {len : Nat}
    (h : m s = some len) : findMatchPos m s = some (0, len) := by
  cases s with
  | nil => rw [findMatchPos, h]; rfl
  | cons c t => rw [findMatchPos, h]

theorem findMatchPos_prefix_none {m : Str → Option Nat} : ∀ (pre s : Str),
    (∀ p, p < pre.length → m ((pre ++ s).drop p) = none) →
    findMatchPos m (pre ++ s)
      = (findMatchPos m s).map (fun r => (r.1 + pre.length, r.2)) := by
  intro pre
  induction pre with
  | nil =>
    intro s _
    rw [List.nil_append]
    cases findMatchPos m s with
    | none => rfl
    | some r => simp
  | cons c pre ih =>
    intro s h
    have h0 : m (c :: (pre ++ s)) = none := by
      have hh := h 0 (by simp)
      simpa using hh
    rw [List.cons_append, findMatchPos]
    simp only [h0]
    have hrec := ih s (fun p hp => by
      have hh := h (p + 1) (by simp only [List.length_cons]; omega)
      simpa using hh)
    rw [hrec]
    cases findMatchPos m s with
    | none => rfl
    | some r =>
      simp only [Option.map_some', Option.some.injEq, Prod.mk.injEq, List.length_cons]
      exact ⟨by omega, trivial⟩

/-! ### Claim C6 - first-match removal and rewriting -/

/-- Remove the first line matching `p` (the `findIndex` + `splice` pair
used by the processor loop when an optional value is absent). -/
def eraseFirst (p : Str → Bool) (ls : List Str) : List Str :=
  match ls.findIdx? p with
  | some i => ls.eraseIdx i
  | none => ls

/-- Rewrite the first line matching `p` in place (the `findIndex` +
assignment pair used when a value is supplied). -/
def setFirst (p : Str → Bool) (f : Str → Str) (ls : List Str) : List Str :=
  match ls.findIdx? p with
  | some i => ls.set i (f (getLine ls i))
  | none => ls

theorem stepSW_none (ls : List Str) :
    stepSW none ls = eraseFirst (testDefineRef (str "SOFTWARE_VERSION")) ls := by
  rw [stepSW, eraseFirst]
  cases ls.findIdx? (testDefineRef (str "SOFTWARE_VERSION")) <;> simp [optTruthy]

theorem stepCCN_none (customer : Str) (ls : List Str) :
    stepCCN none customer ls
      = eraseFirst (testDefineRef (str "CUSTOM_CODE_NAME")) ls := by
  rw [stepCCN, eraseFirst]

theorem stepEE_nonempty {mac : Str} (hm : mac ≠ []) (ls : List Str) :
    stepEE mac ls
      = setFirst (testDefineRef (str "EEPROMDATA_")) (replaceByMatch eepromRefAt mac) ls := by
  rw [stepEE, setFirst]
  cases ls.findIdx? (testDefineRef (str "EEPROMDATA_")) with
  | none => rfl
  | some i =>
    dsimp only
    rw [if_neg hm]

theorem eraseFirst_cons (p : Str → Bool) (l : Str) (ls : List Str) :
    eraseFirst p (l :: ls) = if p l then ls else l :: eraseFirst p ls := by
  rw [eraseFirst, List.findIdx?_cons, List.findIdx?_succ]
  by_cases hp : p l
  · rw [if_pos hp, if_pos hp]
    rfl
  · rw [if_neg hp, if_neg hp, eraseFirst]
    cases ls.findIdx? p <;> rfl

theorem setFirst_cons (p : Str → Bool) (f : Str → Str) (l : Str) (ls : List Str) :
    setFirst p f (l :: ls) = if p l then f l :: ls else l :: setFirst p f ls := by
  rw [setFirst, List.findIdx?_cons, List.findIdx?_succ]
  by_cases hp : p l
  · rw [if_pos hp, if_pos hp]
    rfl
  · rw [if_neg hp, if_neg hp, setFirst]
    cases ls.findIdx? p <;> rfl

theorem eraseFirst_subset {p : Str → Bool} : ∀ {ls : List Str} {x : Str},
    x ∈ eraseFirst p ls → x ∈ ls := by
  intro ls
  induction ls with
  | nil => intro x hx; rw [eraseFirst] at hx; exact hx
  | cons l ls ih =>
    intro x hx
    rw [eraseFirst_cons] at hx
    by_cases hp : p l
    · rw [if_pos hp] at hx
      exact List.mem_cons_of_mem l hx
    · rw [if_neg hp] at hx
      rcases List.mem_cons.mp hx with rfl | hx2
      · exact List.mem_cons_self _ _
      · exact List.mem_cons_of_mem l (ih hx2)

theorem countP_eraseFirst_self {p : Str → Bool} : ∀ {ls : List Str},
    ls.countP p ≤ 1 → (eraseFirst p ls).countP p = 0 := by
  intro ls
  induction ls with
  | nil => intro _; rfl
  | cons l ls ih =>
    intro h
    rw [eraseFirst_cons]
    by_cases hp : p l
    · rw [if_pos hp]
      rw [List.countP_cons_of_pos _ _ hp] at h
      have hz : ls.countP p = 0 := by omega
      exact hz
    · rw [if_neg hp]
      rw [List.countP_cons_of_neg _ _ hp] at h
      rw [List.countP_cons_of_neg _ _ hp]
      exact ih h

theorem countP_eraseFirst_other {p q : Str → Bool} : ∀ {ls : List Str},
    (∀ l ∈ ls, p l = true → q l = false) →
    (eraseFirst p ls).countP q = ls.countP q := by
  intro ls
  induction ls with
  | nil => intro _; rfl
  | cons l ls ih =>
    intro hx
    rw [eraseFirst_cons]
    by_cases hp : p l
    · rw [if_pos hp]
      have hq : ¬ q l = true := by
        rw [hx l (List.mem_cons_self _ _) hp]
        simp
      rw [List.countP_cons_of_neg _ _ hq]
    · rw [if_neg hp]
      by_cases hq : q l = true
      · rw [List.countP_cons_of_pos _ _ hq, List.countP_cons_of_pos _ _ hq,
          ih (fun a ha hpa => hx a (List.mem_cons_of_mem l ha) hpa)]
      · rw [List.countP_cons_of_neg _ _ hq, List.countP_cons_of_neg _ _ hq,
          ih (fun a ha hpa => hx a (List.mem_cons_of_mem l ha) hpa)]

theorem filter_eraseFirst_other {p q : Str → Bool} : ∀ {ls : List Str},
    (∀ l ∈ ls, p l = true → q l = false) →
    (eraseFirst p ls).filter q = ls.filter q := by
  intro ls
  induction ls with
  | nil => intro _; rfl
  | cons l ls ih =>
    intro hx
    rw [eraseFirst_cons]
    by_cases hp : p l
    · rw [if_pos hp]
      have hq : ¬ q l = true := by
        rw [hx l (List.mem_cons_self _ _) hp]
        simp
      rw [List.filter_cons_of_neg hq]
    · rw [if_neg hp]
      by_cases hq : q l = true
      · rw [List.filter_cons_of_pos hq, List.filter_cons_of_pos hq,
          ih (fun a ha hpa => hx a (List.mem_cons_of_mem l ha) hpa)]
      · rw [List.filter_cons_of_neg hq, List.filter_cons_of_neg hq,
          ih (fun a ha hpa => hx a (List.mem_cons_of_mem l ha) hpa)]

theorem setFirst_filter_self {p : Str → Bool} {f : Str → Str} : ∀ {ls : List Str},
    (∀ l ∈ ls, p l = true → p (f l) = true) →
    (setFirst p f ls).filter p
      = (match ls.filter p with
         | [] => []
         | x :: xs => f x :: xs) := by
  intro ls
  induction ls with
  | nil => intro _; rfl
  | cons l ls ih =>
    intro hpres
    rw [setFirst_cons]
    by_cases hp : p l
    · rw [if_pos hp, List.filter_cons_of_pos (hpres l (List.mem_cons_self _ _) hp),
        List.filter_cons_of_pos hp]
    · rw [if_neg hp, List.filter_cons_of_neg hp, List.filter_cons_of_neg hp]
      exact ih (fun a ha hpa => hpres a (List.mem_cons_of_mem l ha) hpa)

theorem countP_setFirst_other {p q : Str → Bool} {f : Str → Str} : ∀ {ls : List Str},
    (∀ l ∈ ls, p l = true → q (f l) = q l) →
    (setFirst p f ls).countP q = ls.countP q := by
  intro ls
  induction ls with
  | nil => intro _; rfl
  | cons l ls ih =>
    intro hq
    rw [setFirst_cons]
    by_cases hp : p l
    · rw [if_pos hp]
      by_cases hql : q l = true
      · rw [List.countP_cons_of_pos _ _ (by rw [hq l (List.mem_cons_self _ _) hp]; exact hql),
          List.countP_cons_of_pos _ _ hql]
      · rw [List.countP_cons_of_neg _ _ (by rw [hq l (List.mem_cons_self _ _) hp]; exact hql),
          List.countP_cons_of_neg _ _ hql]
    · rw [if_neg hp]
      by_cases hql : q l = true
      · rw [List.countP_cons_of_pos _ _ hql, List.countP_cons_of_pos _ _ hql,
          ih (fun a ha hpa => hq a (List.mem_cons_of_mem l ha) hpa)]
      · rw [List.countP_cons_of_neg _ _ hql, List.countP_cons_of_neg _ _ hql,
          ih (fun a ha hpa => hq a (List.mem_cons_of_mem l ha) hpa)]

/-! ### Claim C6 - canonical EEPROM definition lines -/

/-- A well-formed EEPROM macro definition line: whitespace indentation,
`#define`, whitespace, the macro name `EEPROMDATA_<tok>` (a non-blank
token), then nothing or whitespace-separated trailing text. -/
def CanonicalEE (l : Str) : Prop :=
  ∃ ind ws tok rest,
    l = ind ++ (str "#define" ++ (ws ++ (str "EEPROMDATA_" ++ (tok ++ rest)))) ∧
    (∀ c ∈ ind, isWsChar c = true) ∧ ws ≠ [] ∧ (∀ c ∈ ws, isWsChar c = true) ∧
    tok ≠ [] ∧ (∀ c ∈ tok, isWsChar c = false) ∧
    (rest = [] ∨ ∃ c r2, rest = c :: r2 ∧ isWsChar c = true)

theorem drop_append_small {A B : Str} {k : Nat} (h : k < A.length) :
    (A ++ B).drop k = A[k] :: (A.drop (k + 1) ++ B) := by
  rw [List.drop_append_eq_append_drop, Nat.sub_eq_zero_of_le (Nat.le_of_lt h),
    List.drop_zero, List.drop_eq_getElem_cons h, List.cons_append]

theorem drop_append_big {A B : Str} {k : Nat} (h : A.length ≤ k) :
    (A ++ B).drop k = B.drop (k - A.length) := by
  rw [List.drop_append_eq_append_drop, List.drop_of_length_le h, List.nil_append]

theorem ws_ne_hash {c : Char} (h : isWsChar c = true) : c ≠ '#' := by
  intro hc
  rw [hc] at h
  exact absurd h (by decide)

theorem ws_ne_E {c : Char} (h : isWsChar c = true) : c ≠ 'E' := by
  intro hc
  rw [hc] at h
  exact absurd h (by decide)

theorem nameChar_ne_hash {c : Char} (h : isNameChar c = true) : c ≠ '#' := by
  intro hc
  rw [hc] at h
  exact absurd h (by decide)

theorem defineRefAt_false_of_head {w : Str} {c : Char} {t : Str} (hc : c ≠ '#') :
    defineRefAt w (c :: t) = false := by
  rw [defineRefAt]
  have hlead : hasLead (str "#define") (c :: t) = false := by
    rw [Bool.eq_false_iff]
    intro hh
    rw [(by decide : str "#define" = '#' :: str "define")] at hh
    obtain ⟨t', ht'⟩ := hasLead_cons_head hh
    injection ht' with h1 _
    exact hc h1
  rw [hlead, Bool.false_and]

theorem hasLead_df_drop_false (j : Nat) (h1 : 1 ≤ j) (h2 : j < 7) (Y : Str) :
    hasLead (str "#define") ((str "#define").drop j ++ Y) = false := by
  rw [Bool.eq_false_iff]
  intro h
  have hdf : str "#define" = '#' :: str "define" := by decide
  have hdrop : (str "#define").drop j = (str "define").drop (j - 1) := by
    rw [hdf]
    cases j with
    | zero => omega
    | succ j0 => simp
  rw [hdrop] at h
  have hne : (str "define").drop (j - 1) ≠ [] := by
    intro hnil
    have hlen := congrArg List.length hnil
    simp only [List.length_drop, List.length_nil] at hlen
    have h6 : (str "define").length = 6 := by decide
    omega
  obtain ⟨c0, t0, hct⟩ : ∃ c0 t0, (str "define").drop (j - 1) = c0 :: t0 := by
    cases hd : (str "define").drop (j - 1) with
    | nil => exact absurd hd hne
    | cons a b => exact ⟨a, b, rfl⟩
  rw [hct, List.cons_append, hdf] at h
  obtain ⟨t, ht⟩ := hasLead_cons_head h
  injection ht with hh1 _
  have hc0 : c0 ∈ str "define" := by
    have hmem : c0 ∈ (str "define").drop (j - 1) := by
      rw [hct]
      exact List.mem_cons_self _ _
    exact List.mem_of_mem_drop hmem
  rw [hh1] at hc0
  exact absurd hc0 (by decide)

theorem mac_head_E {mac : Str} (hm1 : hasLead (str "EEPROMDATA_") mac = true) :
    ∃ mt, mac = 'E' :: mt := by
  rw [(by decide : str "EEPROMDATA_" = 'E' :: str "EPROMDATA_")] at hm1
  exact hasLead_cons_head hm1

theorem eepromRefAt_canonical {tok rest : Str} (htok0 : tok ≠ [])
    (htok : ∀ c ∈ tok, isWsChar c = false)
    (hrest : rest = [] ∨ ∃ c r2, rest = c :: r2 ∧ isWsChar c = true) :
    eepromRefAt (str "EEPROMDATA_" ++ (tok ++ rest)) = some (11 + tok.length) := by
  rw [eepromRefAt, hasLead_self_append]
  have hdrop : (str "EEPROMDATA_" ++ (tok ++ rest)).drop 11 = tok ++ rest := by
    rw [(by decide : (11 : Nat) = (str "EEPROMDATA_").length), List.drop_left]
  have htake : (tok ++ rest).takeWhile (fun c => !isWsChar c) = tok := by
    rw [takeWhile_all_append (fun c hc => by rw [htok c hc]; rfl)]
    rcases hrest with rfl | ⟨c, r2, rfl, hc⟩
    · simp
    · rw [List.takeWhile_cons_of_neg (by rw [hc]; decide)]
      simp
  simp only [if_true, hdrop, htake, if_neg htok0]

theorem replaceByMatch_canonical {mac ind ws tok rest : Str}
    (hind : ∀ c ∈ ind, isWsChar c = true) (hws : ∀ c ∈ ws, isWsChar c = true)
    (htok0 : tok ≠ []) (htok : ∀ c ∈ tok, isWsChar c = false)
    (hrest : rest = [] ∨ ∃ c r2, rest = c :: r2 ∧ isWsChar c = true) :
    replaceByMatch eepromRefAt mac
        (ind ++ (str "#define" ++ (ws ++ (str "EEPROMDATA_" ++ (tok ++ rest)))))
      = ind ++ (str "#define" ++ (ws ++ (mac ++ rest))) := by
  have hassoc : ind ++ (str "#define" ++ (ws ++ (str "EEPROMDATA_" ++ (tok ++ rest))))
      = (ind ++ str "#define" ++ ws) ++ (str "EEPROMDATA_" ++ (tok ++ rest)) := by
    simp [List.append_assoc]
  have hPne : ∀ c ∈ ind ++ str "#define" ++ ws, c ≠ 'E' := by
    intro c hc
    rcases List.mem_append.mp hc with hc1 | hc2
    · rcases List.mem_append.mp hc1 with hc3 | hc4
      · exact ws_ne_E (hind c hc3)
      · exact (by decide : ∀ c ∈ str "#define", c ≠ 'E') c hc4
    · exact ws_ne_E (hws c hc2)
  have hbefore : ∀ p, p < (ind ++ str "#define" ++ ws).length →
      eepromRefAt (((ind ++ str "#define" ++ ws)
        ++ (str "EEPROMDATA_" ++ (tok ++ rest))).drop p) = none := by
    intro p hp
    rw [drop_append_small hp, eepromRefAt]
    have hlead : hasLead (str "EEPROMDATA_")
        ((ind ++ str "#define" ++ ws)[p]
          :: ((ind ++ str "#define" ++ ws).drop (p + 1)
              ++ (str "EEPROMDATA_" ++ (tok ++ rest)))) = false := by
      rw [Bool.eq_false_iff]
      intro hh
      rw [(by decide : str "EEPROMDATA_" = 'E' :: str "EPROMDATA_")] at hh
      obtain ⟨t, ht⟩ := hasLead_cons_head hh
      injection ht with h1 _
      exact hPne _ (List.getElem_mem _) h1
    rw [hlead]
    rfl
  have hmain : findMatchPos eepromRefAt
      ((ind ++ str "#define" ++ ws) ++ (str "EEPROMDATA_" ++ (tok ++ rest)))
      = some ((ind ++ str "#define" ++ ws).length, 11 + tok.length) := by
    rw [findMatchPos_prefix_none _ _ hbefore,
      findMatchPos_of_head (eepromRefAt_canonical htok0 htok hrest)]
    simp
  rw [hassoc, replaceByMatch, hmain]
  have htk : ((ind ++ str "#define" ++ ws) ++ (str "EEPROMDATA_" ++ (tok ++ rest))).take
      (ind ++ str "#define" ++ ws).length = ind ++ str "#define" ++ ws :=
    List.take_left _ _
  have hdr : ((ind ++ str "#define" ++ ws) ++ (str "EEPROMDATA_" ++ (tok ++ rest))).drop
      ((ind ++ str "#define" ++ ws).length + (11 + tok.length)) = rest := by
    rw [drop_append_big (by omega)]
    have h1 : (ind ++ str "#define" ++ ws).length + (11 + tok.length)
        - (ind ++ str "#define" ++ ws).length = 11 + tok.length := by omega
    rw [h1, drop_append_big (by
      have h11 : (str "EEPROMDATA_").length = 11 := by decide
      omega)]
    have h11 : (str "EEPROMDATA_").length = 11 := by decide
    rw [h11]
    have h2 : 11 + tok.length - 11 = tok.length := by omega
    rw [h2, List.drop_left]
  dsimp only
  rw [htk, hdr]
  simp [List.append_assoc]

theorem canonical_replaced_testEE {mac ind ws rest : Str}
    (hws0 : ws ≠ []) (hws : ∀ c ∈ ws, isWsChar c = true)
    (hm1 : hasLead (str "EEPROMDATA_") mac = true) :
    testDefineRef (str "EEPROMDATA_")
      (ind ++ (str "#define" ++ (ws ++ (mac ++ rest)))) = true := by
  rw [testDefineRef]
  refine anyPos_iff.mpr ⟨ind.length, ?_⟩
  rw [drop_append_big (Nat.le_refl _), Nat.sub_self, List.drop_zero]
  rw [defineRefAt, hasLead_self_append, Bool.true_and]
  have hdrop7 : (str "#define" ++ (ws ++ (mac ++ rest))).drop 7 = ws ++ (mac ++ rest) := by
    rw [(by decide : (7 : Nat) = (str "#define").length), List.drop_left]
  rw [hdrop7]
  obtain ⟨w0, ws', rfl⟩ : ∃ w0 ws', ws = w0 :: ws' := by
    cases ws with
    | nil => exact absurd rfl hws0
    | cons a b => exact ⟨a, b, rfl⟩
  rw [List.cons_append]
  have hw0 : isWsChar w0 = true := hws w0 (List.mem_cons_self _ _)
  obtain ⟨mt, hmt⟩ := mac_head_E hm1
  dsimp only
  rw [hw0, Bool.true_and, List.dropWhile_cons_of_pos hw0,
    dropWhile_ws_append (fun c hc => hws c (List.mem_cons_of_mem _ hc)),
    hmt, List.cons_append, List.dropWhile_cons_of_neg (by decide),
    ← List.cons_append, ← hmt]
  exact hasLead_extend hm1

theorem canonical_replaced_contains {mac ind ws rest : Str} :
    containsSub mac (ind ++ (str "#define" ++ (ws ++ (mac ++ rest)))) = true := by
  have h := containsSub_mid mac (ind ++ str "#define" ++ ws) rest
  have hassoc : ind ++ str "#define" ++ ws ++ mac ++ rest
      = ind ++ (str "#define" ++ (ws ++ (mac ++ rest))) := by
    simp [List.append_assoc]
  rw [hassoc] at h
  exact h

theorem replaced_no_defineRef {w mac ind ws tok rest : Str}
    (hind : ∀ c ∈ ind, isWsChar c = true) (hws0 : ws ≠ [])
    (hws : ∀ c ∈ ws, isWsChar c = true)
    (hm1 : hasLead (str "EEPROMDATA_") mac = true) (hm2 : mac.all isNameChar = true)
    (hwmac : hasLead w (mac ++ rest) = false)
    (horig : testDefineRef w
      (ind ++ (str "#define" ++ (ws ++ (str "EEPROMDATA_" ++ (tok ++ rest))))) = false) :
    testDefineRef w (ind ++ (str "#define" ++ (ws ++ (mac ++ rest)))) = false := by
  rw [Bool.eq_false_iff]
  intro hany
  rw [testDefineRef] at hany
  obtain ⟨k, hk⟩ := anyPos_iff.mp hany
  have h7 : (str "#define").length = 7 := by decide
  by_cases h1 : k < ind.length
  · rw [drop_append_small h1,
      defineRefAt_false_of_head (ws_ne_hash (hind _ (List.getElem_mem _)))] at hk
    exact Bool.noConfusion hk
  · rw [drop_append_big (Nat.le_of_not_lt h1)] at hk
    by_cases h2 : k - ind.length < 7
    · by_cases hj0 : k - ind.length = 0
      · rw [hj0, List.drop_zero] at hk
        have hfalse : defineRefAt w (str "#define" ++ (ws ++ (mac ++ rest))) = false := by
          rw [defineRefAt, hasLead_self_append, Bool.true_and]
          have hdrop7 : (str "#define" ++ (ws ++ (mac ++ rest))).drop 7
              = ws ++ (mac ++ rest) := by
            rw [(by decide : (7 : Nat) = (str "#define").length), List.drop_left]
          rw [hdrop7]
          obtain ⟨w0, ws', rfl⟩ : ∃ w0 ws', ws = w0 :: ws' := by
            cases ws with
            | nil => exact absurd rfl hws0
            | cons a b => exact ⟨a, b, rfl⟩
          rw [List.cons_append]
          have hw0 : isWsChar w0 = true := hws w0 (List.mem_cons_self _ _)
          obtain ⟨mt, hmt⟩ := mac_head_E hm1
          dsimp only
          rw [hw0, Bool.true_and, List.dropWhile_cons_of_pos hw0,
            dropWhile_ws_append (fun c hc => hws c (List.mem_cons_of_mem _ hc)),
            hmt, List.cons_append, List.dropWhile_cons_of_neg (by decide),
            ← List.cons_append, ← hmt]
          exact hwmac
        rw [hfalse] at hk
        exact Bool.noConfusion hk
      · rw [List.drop_append_eq_append_drop] at hk
        have hz : k - ind.length - (str "#define").length = 0 := by omega
        rw [hz, List.drop_zero, defineRefAt,
          hasLead_df_drop_false (k - ind.length) (by omega) (by omega),
          Bool.false_and] at hk
        exact Bool.noConfusion hk
    · rw [drop_append_big (by omega)] at hk
      by_cases h3 : k - ind.length - (str "#define").length < ws.length
      · rw [drop_append_small h3,
          defineRefAt_false_of_head (ws_ne_hash (hws _ (List.getElem_mem _)))] at hk
        exact Bool.noConfusion hk
      · rw [drop_append_big (Nat.le_of_not_lt h3)] at hk
        by_cases h4 : k - ind.length - (str "#define").length - ws.length < mac.length
        · rw [drop_append_small h4,
            defineRefAt_false_of_head (nameChar_ne_hash
              (List.all_eq_true.mp hm2 _ (List.getElem_mem _)))] at hk
          exact Bool.noConfusion hk
        · rw [drop_append_big (Nat.le_of_not_lt h4)] at hk
          have h11 : (str "EEPROMDATA_").length = 11 := by decide
          have htrue : testDefineRef w
              (ind ++ (str "#define" ++ (ws ++ (str "EEPROMDATA_" ++ (tok ++ rest)))))
              = true := by
            rw [testDefineRef]
            refine anyPos_iff.mpr
              ⟨ind.length + (str "#define").length + ws.length
                + (str "EEPROMDATA_").length + tok.length
                + (k - ind.length - (str "#define").length - ws.length - mac.length), ?_⟩
            rw [drop_append_big (by omega)]
            have e1 : ind.length + (str "#define").length + ws.length
                + (str "EEPROMDATA_").length + tok.length
                + (k - ind.length - (str "#define").length - ws.length - mac.length)
                - ind.length
                = (str "#define").length + ws.length + (str "EEPROMDATA_").length
                  + tok.length
                  + (k - ind.length - (str "#define").length - ws.length - mac.length) := by
              omega
            rw [e1, drop_append_big (by omega)]
            have e2 : (str "#define").length + ws.length + (str "EEPROMDATA_").length
                + tok.length
                + (k - ind.length - (str "#define").length - ws.length - mac.length)
                - (str "#define").length
                = ws.length + (str "EEPROMDATA_").length + tok.length
                  + (k - ind.length - (str "#define").length - ws.length - mac.length) := by
              omega
            rw [e2, drop_append_big (by omega)]
            have e3 : ws.length + (str "EEPROMDATA_").length + tok.length
                + (k - ind.length - (str "#define").length - ws.length - mac.length)
                - ws.length
                = (str "EEPROMDATA_").length + tok.length
                  + (k - ind.length - (str "#define").length - ws.length - mac.length) := by
              omega
            rw [e3, drop_append_big (by omega)]
            have e4 : (str "EEPROMDATA_").length + tok.length
                + (k - ind.length - (str "#define").length - ws.length - mac.length)
                - (str "EEPROMDATA_").length
                = tok.length
                  + (k - ind.length - (str "#define").length - ws.length - mac.length) := by
              omega
            rw [e4, drop_append_big (by omega)]
            have e5 : tok.length
                + (k - ind.length - (str "#define").length - ws.length - mac.length)
                - tok.length
                = k - ind.length - (str "#define").length - ws.length - mac.length := by
              omega
            rw [e5]
            exact hk
          rw [horig] at htrue
          exact Bool.noConfusion htrue

theorem canonical_replace_line {mac l : Str}
    (hc : CanonicalEE l)
    (hm1 : hasLead (str "EEPROMDATA_") mac = true) (hm2 : mac.all isNameChar = true)
    (hsw : testDefineRef (str "SOFTWARE_VERSION") l = false)
    (hccn : testDefineRef (str "CUSTOM_CODE_NAME") l = false) :
    testDefineRef (str "EEPROMDATA_") (replaceByMatch eepromRefAt mac l) = true ∧
    testDefineRef (str "SOFTWARE_VERSION") (replaceByMatch eepromRefAt mac l) = false ∧
    testDefineRef (str "CUSTOM_CODE_NAME") (replaceByMatch eepromRefAt mac l) = false ∧
    containsSub mac (replaceByMatch eepromRefAt mac l) = true := by
  obtain ⟨ind, ws, tok, rest, rfl, hind, hws0, hws, htok0, htok, hrest⟩ := hc
  obtain ⟨mt, hmt⟩ := mac_head_E hm1
  have hswmac : hasLead (str "SOFTWARE_VERSION") (mac ++ rest) = false := by
    rw [Bool.eq_false_iff]
    intro hh
    rw [(by decide : str "SOFTWARE_VERSION" = 'S' :: str "OFTWARE_VERSION")] at hh
    obtain ⟨t, ht⟩ := hasLead_cons_head hh
    rw [hmt, List.cons_append] at ht
    injection ht with hx1 _
    exact absurd hx1 (by decide)
  have hccnmac : hasLead (str "CUSTOM_CODE_NAME") (mac ++ rest) = false := by
    rw [Bool.eq_false_iff]
    intro hh
    rw [(by decide : str "CUSTOM_CODE_NAME" = 'C' :: str "USTOM_CODE_NAME")] at hh
    obtain ⟨t, ht⟩ := hasLead_cons_head hh
    rw [hmt, List.cons_append] at ht
    injection ht with hx1 _
    exact absurd hx1 (by decide)
  rw [replaceByMatch_canonical hind hws htok0 htok hrest]
  exact ⟨canonical_replaced_testEE hws0 hws hm1,
    replaced_no_defineRef hind hws0 hws hm1 hm2 hswmac hsw,
    replaced_no_defineRef hind hws0 hws hm1 hm2 hccnmac hccn,
    canonical_replaced_contains⟩

set_option maxRecDepth 4000 in
/-- C6 counterexample: a reference block with two `SOFTWARE_VERSION`
lines, synthesized with no optional values, keeps one of them - the
processor loop removes only the first matching line - so "zero
optional-field definition lines for every reference block" is false. -/
theorem C6_counterexample :
    List.countP (testDefineRef (str "SOFTWARE_VERSION"))
      (jsSplit '\n' (createModelConfiguration
        (str "#if A\n#define SOFTWARE_VERSION                (uint32_t)0x19035B01\n#define SOFTWARE_VERSION                (uint32_t)0x19035B02\n#define EEPROMDATA_OLD_1 1")
        (str "A") (str "B") (str "EEPROMDATA_NEW_1") none none (str "PGEL")))
      = 1 ∧ (1 : Nat) ≠ 0 := by
  decide

/-- C6 (amended): for a reference block whose lines (after the guard-line
rewrite) contain at most one `SOFTWARE_VERSION` line, at most one
`CUSTOM_CODE_NAME` line, and exactly one well-formed EEPROM macro
definition line, none matching two field patterns at once, synthesizing
with no optional field values yields a block with zero optional-field
definition lines and exactly one EEPROM macro definition line - the
original one rewritten in place to the new macro name, never removed.
(With duplicated field lines only the first match is removed or
rewritten, which is what forces the added hypotheses.) -/
theorem C6_amended (cb refName newName mac customer l0 : Str) (body : List Str)
    (hcb : jsSplit '\n' cb = l0 :: body)
    (hm1 : hasLead (str "EEPROMDATA_") mac = true) (hm2 : mac.all isNameChar = true) :
    ∀ ls0, ls0 = replaceHashIf (replaceFirstSub refName newName l0) :: body →
    List.countP (testDefineRef (str "SOFTWARE_VERSION")) ls0 ≤ 1 →
    List.countP (testDefineRef (str "CUSTOM_CODE_NAME")) ls0 ≤ 1 →
    List.countP (testDefineRef (str "EEPROMDATA_")) ls0 = 1 →
    (∀ l ∈ ls0,
      ¬(testDefineRef (str "SOFTWARE_VERSION") l = true ∧
        testDefineRef (str "CUSTOM_CODE_NAME") l = true) ∧
      ¬(testDefineRef (str "SOFTWARE_VERSION") l = true ∧
        testDefineRef (str "EEPROMDATA_") l = true) ∧
      ¬(testDefineRef (str "CUSTOM_CODE_NAME") l = true ∧
        testDefineRef (str "EEPROMDATA_") l = true)) →
    (∀ l ∈ ls0, testDefineRef (str "EEPROMDATA_") l = true → CanonicalEE l) →
    ∃ res : List Str,
      createModelConfiguration cb refName newName mac none none customer
        = joinLines res ∧
      List.countP (testDefineRef (str "SOFTWARE_VERSION")) res = 0 ∧
      List.countP (testDefineRef (str "CUSTOM_CODE_NAME")) res = 0 ∧
      List.countP (testDefineRef (str "EEPROMDATA_")) res = 1 ∧
      res.filter (testDefineRef (str "EEPROMDATA_"))
        = (ls0.filter (testDefineRef (str "EEPROMDATA_"))).map
            (replaceByMatch eepromRefAt mac) ∧
      ∀ l ∈ res.filter (testDefineRef (str "EEPROMDATA_")),
        containsSub mac l = true := by
  intro ls0 hls0 hsw1 hccn1 hee1 hx hcanon
  have hmne : mac ≠ [] := by
    intro hnil
    rw [hnil] at hm1
    exact absurd hm1 (by decide)
  have hx_sw_ccn : ∀ l ∈ ls0, testDefineRef (str "SOFTWARE_VERSION") l = true →
      testDefineRef (str "CUSTOM_CODE_NAME") l = false := by
    intro l hl h
    rw [Bool.eq_false_iff]
    exact fun hc => (hx l hl).1 ⟨h, hc⟩
  have hx_sw_ee : ∀ l ∈ ls0, testDefineRef (str "SOFTWARE_VERSION") l = true →
      testDefineRef (str "EEPROMDATA_") l = false := by
    intro l hl h
    rw [Bool.eq_false_iff]
    exact fun hc => (hx l hl).2.1 ⟨h, hc⟩
  have hx_ccn_sw : ∀ l ∈ ls0, testDefineRef (str "CUSTOM_CODE_NAME") l = true →
      testDefineRef (str "SOFTWARE_VERSION") l = false := by
    intro l hl h
    rw [Bool.eq_false_iff]
    exact fun hc => (hx l hl).1 ⟨hc, h⟩
  have hx_ccn_ee : ∀ l ∈ ls0, testDefineRef (str "CUSTOM_CODE_NAME") l = true →
      testDefineRef (str "EEPROMDATA_") l = false := by
    intro l hl h
    rw [Bool.eq_false_iff]
    exact fun hc => (hx l hl).2.2 ⟨h, hc⟩
  have hx_ee_sw : ∀ l ∈ ls0, testDefineRef (str "EEPROMDATA_") l = true →
      testDefineRef (str "SOFTWARE_VERSION") l = false := by
    intro l hl h
    rw [Bool.eq_false_iff]
    exact fun hc => (hx l hl).2.1 ⟨hc, h⟩
  have hx_ee_ccn : ∀ l ∈ ls0, testDefineRef (str "EEPROMDATA_") l = true →
      testDefineRef (str "CUSTOM_CODE_NAME") l = false := by
    intro l hl h
    rw [Bool.eq_false_iff]
    exact fun hc => (hx l hl).2.2 ⟨hc, h⟩
  refine ⟨stepEE mac (stepCCN none customer (stepSW none ls0)), ?_,
    ?_, ?_, ?_, ?_, ?_⟩
  · rw [createModelConfiguration, hcb, hls0]
  all_goals
    rw [stepSW_none, stepCCN_none,
      stepEE_nonempty hmne]
  all_goals
    have sub1 : ∀ x ∈ eraseFirst (testDefineRef (str "SOFTWARE_VERSION")) ls0, x ∈ ls0 :=
      fun x hx' => eraseFirst_subset hx'
    have sub2 : ∀ x ∈ eraseFirst (testDefineRef (str "CUSTOM_CODE_NAME"))
        (eraseFirst (testDefineRef (str "SOFTWARE_VERSION")) ls0), x ∈ ls0 :=
      fun x hx' => sub1 x (eraseFirst_subset hx')
    have c1 : List.countP (testDefineRef (str "SOFTWARE_VERSION"))
        (eraseFirst (testDefineRef (str "SOFTWARE_VERSION")) ls0) = 0 :=
      countP_eraseFirst_self hsw1
    have c2 : List.countP (testDefineRef (str "CUSTOM_CODE_NAME"))
        (eraseFirst (testDefineRef (str "SOFTWARE_VERSION")) ls0)
        = List.countP (testDefineRef (str "CUSTOM_CODE_NAME")) ls0 :=
      countP_eraseFirst_other hx_sw_ccn
    have f1 : (eraseFirst (testDefineRef (str "SOFTWARE_VERSION")) ls0).filter
        (testDefineRef (str "EEPROMDATA_"))
        = ls0.filter (testDefineRef (str "EEPROMDATA_")) :=
      filter_eraseFirst_other hx_sw_ee
    have d2 : List.countP (testDefineRef (str "SOFTWARE_VERSION"))
        (eraseFirst (testDefineRef (str "CUSTOM_CODE_NAME"))
          (eraseFirst (testDefineRef (str "SOFTWARE_VERSION")) ls0)) = 0 := by
      rw [countP_eraseFirst_other (fun l hl h => hx_ccn_sw l (sub1 l hl) h)]
      exact c1
    have d1 : List.countP (testDefineRef (str "CUSTOM_CODE_NAME"))
        (eraseFirst (testDefineRef (str "CUSTOM_CODE_NAME"))
          (eraseFirst (testDefineRef (str "SOFTWARE_VERSION")) ls0)) = 0 := by
      refine countP_eraseFirst_self ?_
      rw [c2]
      exact hccn1
    have f2 : (eraseFirst (testDefineRef (str "CUSTOM_CODE_NAME"))
        (eraseFirst (testDefineRef (str "SOFTWARE_VERSION")) ls0)).filter
          (testDefineRef (str "EEPROMDATA_"))
        = ls0.filter (testDefineRef (str "EEPROMDATA_")) := by
      rw [filter_eraseFirst_other (fun l hl h => hx_ccn_ee l (sub1 l hl) h)]
      exact f1
    have d3 : List.countP (testDefineRef (str "EEPROMDATA_"))
        (eraseFirst (testDefineRef (str "CUSTOM_CODE_NAME"))
          (eraseFirst (testDefineRef (str "SOFTWARE_VERSION")) ls0)) = 1 := by
      rw [List.countP_eq_length_filter, f2, ← List.countP_eq_length_filter]
      exact hee1
    have hfacts : ∀ l ∈ eraseFirst (testDefineRef (str "CUSTOM_CODE_NAME"))
        (eraseFirst (testDefineRef (str "SOFTWARE_VERSION")) ls0),
        testDefineRef (str "EEPROMDATA_") l = true →
        testDefineRef (str "EEPROMDATA_") (replaceByMatch eepromRefAt mac l) = true ∧
        testDefineRef (str "SOFTWARE_VERSION") (replaceByMatch eepromRefAt mac l) = false ∧
        testDefineRef (str "CUSTOM_CODE_NAME") (replaceByMatch eepromRefAt mac l) = false ∧
        containsSub mac (replaceByMatch eepromRefAt mac l) = true := by
      intro l hl he
      exact canonical_replace_line (hcanon l (sub2 l hl) he) hm1 hm2
        (hx_ee_sw l (sub2 l hl) he) (hx_ee_ccn l (sub2 l hl) he)
    have hpres : ∀ l ∈ eraseFirst (testDefineRef (str "CUSTOM_CODE_NAME"))
        (eraseFirst (testDefineRef (str "SOFTWARE_VERSION")) ls0),
        testDefineRef (str "EEPROMDATA_") l = true →
        testDefineRef (str "EEPROMDATA_") (replaceByMatch eepromRefAt mac l) = true :=
      fun l hl he => (hfacts l hl he).1
    have hsingle : ∃ x, (eraseFirst (testDefineRef (str "CUSTOM_CODE_NAME"))
        (eraseFirst (testDefineRef (str "SOFTWARE_VERSION")) ls0)).filter
          (testDefineRef (str "EEPROMDATA_")) = [x] := by
      have hlen : ((eraseFirst (testDefineRef (str "CUSTOM_CODE_NAME"))
          (eraseFirst (testDefineRef (str "SOFTWARE_VERSION")) ls0)).filter
            (testDefineRef (str "EEPROMDATA_"))).length = 1 := by
        rw [← List.countP_eq_length_filter]
        exact d3
      cases hf : (eraseFirst (testDefineRef (str "CUSTOM_CODE_NAME"))
          (eraseFirst (testDefineRef (str "SOFTWARE_VERSION")) ls0)).filter
            (testDefineRef (str "EEPROMDATA_")) with
      | nil => rw [hf] at hlen; simp at hlen
      | cons x xs =>
        rw [hf] at hlen
        simp at hlen
        exact ⟨x, by rw [hlen]⟩
    obtain ⟨x0, hx0⟩ := hsingle
    first
    | -- countP SOFTWARE_VERSION of the result is 0
      (rw [countP_setFirst_other (fun l hl he => by
        rw [(hfacts l hl he).2.1, hx_ee_sw l (sub2 l hl) he])]
       exact d2)
    | -- countP CUSTOM_CODE_NAME of the result is 0
      (rw [countP_setFirst_other (fun l hl he => by
        rw [(hfacts l hl he).2.2.1, hx_ee_ccn l (sub2 l hl) he])]
       exact d1)
    | -- countP EEPROMDATA_ of the result is 1
      (rw [countP_setFirst_other (fun l hl he => by
        rw [(hfacts l hl he).1, he])]
       exact d3)
    | -- the filtered result is the rewritten original line
      (rw [setFirst_filter_self hpres, hx0, ← f2, hx0]
       rfl)
    | -- the rewritten line contains the new macro
      (rw [setFirst_filter_self hpres, hx0]
       intro l hl
       have hx0mem : x0 ∈ (eraseFirst (testDefineRef (str "CUSTOM_CODE_NAME"))
           (eraseFirst (testDefineRef (str "SOFTWARE_VERSION")) ls0)).filter
             (testDefineRef (str "EEPROMDATA_")) := by
         rw [hx0]
         exact List.mem_cons_self _ _
       have hx0in := List.mem_of_mem_filter hx0mem
       have hx0ee := List.of_mem_filter hx0mem
       rcases List.mem_cons.mp hl with rfl | hnil
       · exact (hfacts x0 hx0in hx0ee).2.2.2
       · cases hnil)

set_option maxRecDepth 8000 in
/-- Witness for C6 (amended) at a concrete reference block with one
`SOFTWARE_VERSION` line, one `CUSTOM_CODE_NAME` line and one EEPROM
macro line. -/
theorem C6_witness :
    ∃ res : List Str,
      createModelConfiguration
          (str "#if A\n#define SOFTWARE_VERSION                (uint32_t)0x19035B01\n#define CUSTOM_CODE_NAME                \"OLD\"\n#define EEPROMDATA_PGEL_72C_4_1980 1")
          (str "A") (str "B") (str "EEPROMDATA_PGEL_72C_4_1981") none none
          (str "PGEL")
        = joinLines res ∧
      List.countP (testDefineRef (str "SOFTWARE_VERSION")) res = 0 ∧
      List.countP (testDefineRef (str "CUSTOM_CODE_NAME")) res = 0 ∧
      List.countP (testDefineRef (str "EEPROMDATA_")) res = 1 ∧
      res.filter (testDefineRef (str "EEPROMDATA_"))
        = ([str "#elif B",
            str "#define SOFTWARE_VERSION                (uint32_t)0x19035B01",
            str "#define CUSTOM_CODE_NAME                \"OLD\"",
            str "#define EEPROMDATA_PGEL_72C_4_1980 1"].filter
              (testDefineRef (str "EEPROMDATA_"))).map
            (replaceByMatch eepromRefAt (str "EEPROMDATA_PGEL_72C_4_1981")) ∧
      ∀ l ∈ res.filter (testDefineRef (str "EEPROMDATA_")),
        containsSub (str "EEPROMDATA_PGEL_72C_4_1981") l = true :=
  C6_amended
    (str "#if A\n#define SOFTWARE_VERSION                (uint32_t)0x19035B01\n#define CUSTOM_CODE_NAME                \"OLD\"\n#define EEPROMDATA_PGEL_72C_4_1980 1")
    (str "A") (str "B") (str "EEPROMDATA_PGEL_72C_4_1981") (str "PGEL")
    (str "#if A")
    [str "#define SOFTWARE_VERSION                (uint32_t)0x19035B01",
     str "#define CUSTOM_CODE_NAME                \"OLD\"",
     str "#define EEPROMDATA_PGEL_72C_4_1980 1"]
    (by decide) (by decide) (by decide)
    [str "#elif B",
     str "#define SOFTWARE_VERSION                (uint32_t)0x19035B01",
     str "#define CUSTOM_CODE_NAME                \"OLD\"",
     str "#define EEPROMDATA_PGEL_72C_4_1980 1"]
    (by decide) (by decide) (by decide) (by decide) (by decide)
    (by
      intro l hl he
      fin_cases hl
      · exact absurd he (by decide)
      · exact absurd he (by decide)
      · exact absurd he (by decide)
      · exact ⟨[], str " ", str "PGEL_72C_4_1980", str " 1", by decide, by decide,
          by decide, by decide, by decide, by decide,
          Or.inr ⟨' ', str "1", by decide, by decide⟩⟩)
